import Mathlib

/-!
# Verification of the SecureSphere credential-vault core

Shallow embedding of the cryptographic credential vault of the
SecureSphere browser extension (key derivation, encryption envelopes,
encrypted local storage, PIN vault, session manager, credential store),
together with proofs about the embedded operations.

Modelling conventions:
* JavaScript JSON values are the inductive `JVal`; `JSON.stringify` and
  `JSON.parse` are `jsonStringify` / `jsonParse`, with a proven round trip.
* AES-GCM is modelled as an idealised AEAD: a keystream XOR (CTR mode)
  plus an authentication tag that binds key, nonce and ciphertext
  injectively, so decryption succeeds exactly with the encrypting key
  (the negligible forgery probability is modelled as zero).
* `TextEncoder`/`TextDecoder` are modelled as the code-point coding of a
  string; random IVs (`crypto.getRandomValues`) are explicit parameters.
* PBKDF2 key derivation is modelled as an injective symbolic function of
  (password, salt, iterations); `chrome.storage.local` is an association
  list from keys to `JVal`, where `set` merges (JavaScript semantics).
-/

set_option maxHeartbeats 2000000

/-- JSON-like JavaScript values: the value universe stored in
`chrome.storage.local` and produced by `JSON.parse`. -/
inductive JVal where
  | null
  | bool (b : Bool)
  | num (n : Int)
  | str (s : String)
  | arr (xs : List JVal)
  | obj (fields : List (String × JVal))

mutual

/-- Structural size of a `JVal` (leaves count 1), used as parser fuel. -/
def sizeJ : JVal → Nat
  | .str _ => 1
  | .arr xs => 1 + sizeL xs
  | .num _ => 1
  | .obj fs => 1 + sizeF fs
  | .bool _ => 1
  | .null => 1

def sizeL : List JVal → Nat
  | [] => 0
  | x :: t => 1 + sizeJ x + sizeL t

def sizeF : List (String × JVal) → Nat
  | [] => 0
  | kv :: t => 1 + sizeJ kv.2 + sizeF t

end

/-- Fuel-driven decimal digit extraction (kernel-computable). -/
def natCharsAux : Nat → Nat → List Char
  | 0, _ => []
  | _ + 1, 0 => []
  | fuel + 1, n + 1 =>
      natCharsAux fuel ((n + 1) / 10) ++ [Nat.digitChar ((n + 1) % 10)]

/-- Decimal digit characters of a natural number (big-endian). -/
def natChars (n : Nat) : List Char :=
  if n = 0 then ['0'] else natCharsAux n n

theorem natCharsAux_eq_digits : ∀ (fuel n : Nat), n ≤ fuel →
    natCharsAux fuel n = (Nat.digits 10 n).reverse.map Nat.digitChar := by
  intro fuel
  induction fuel with
  | zero =>
    intro n hn
    interval_cases n
    simp [natCharsAux]
  | succ fuel ih =>
    intro n hn
    rcases n with _ | m
    · simp [natCharsAux]
    · have hdiv : (m + 1) / 10 ≤ fuel := by
        have : (m + 1) / 10 < m + 1 := Nat.div_lt_self (by omega) (by omega)
        omega
      rw [natCharsAux, ih _ hdiv,
        Nat.digits_def' (by norm_num : 1 < 10) (by omega : 0 < m + 1)]
      simp

theorem natChars_eq (n : Nat) :
    natChars n = if n = 0 then ['0'] else (Nat.digits 10 n).reverse.map Nat.digitChar := by
  unfold natChars
  by_cases h : n = 0
  · simp [h]
  · simp [h, natCharsAux_eq_digits n n le_rfl]

/-- Decimal representation of an integer as characters. -/
def intChars (n : Int) : List Char :=
  if n < 0 then '-' :: natChars n.natAbs else natChars n.natAbs

/-- `JSON.stringify` escaping of one character inside a string literal. -/
def escChar (c : Char) : List Char :=
  if c = '"' ∨ c = '\\' then ['\\', c] else [c]

/-- `JSON.stringify` escaping of a whole string body. -/
def escStr (s : String) : List Char :=
  s.data.foldr (fun c acc => escChar c ++ acc) []

mutual

/-- Character stream produced by `JSON.stringify` (modelled). -/
def strJ : JVal → List Char
  | .num n => intChars n
  | .bool true => ['t', 'r', 'u', 'e']
  | .str s => '"' :: (escStr s ++ ['"'])
  | .bool false => ['f', 'a', 'l', 's', 'e']
  | .arr xs => '[' :: (strElems xs ++ [']'])
  | .null => ['n', 'u', 'l', 'l']
  | .obj fs => '{' :: (strFields fs ++ ['}'])

def strElems : List JVal → List Char
  | [] => []
  | [x] => strJ x
  | x :: y :: t => strJ x ++ ',' :: strElems (y :: t)

def strFields : List (String × JVal) → List Char
  | [] => []
  | [kv] => '"' :: (escStr kv.1 ++ '"' :: ':' :: strJ kv.2)
  | kv :: kv2 :: t =>
      ('"' :: (escStr kv.1 ++ '"' :: ':' :: strJ kv.2)) ++ ',' :: strFields (kv2 :: t)

end

/-- `JSON.stringify`, modelled. -/
def jsonStringify (v : JVal) : String := String.mk (strJ v)

/-- Undo `JSON.stringify` escapes (the subset the model produces). -/
def unescChar (c : Char) : Option Char :=
  if c = '"' ∨ c = '\\' then some c
  else if c = 'n' then some '\n'
  else if c = 't' then some '\t'
  else none

/-- Scan a JSON string literal body up to the closing quote. -/
def scanStr : List Char → Option (List Char × List Char)
  | [] => none
  | c :: rest =>
    if c = '"' then some ([], rest)
    else if c = '\\' then
      match rest with
      | [] => none
      | e :: rest2 =>
        match unescChar e with
        | none => none
        | some d =>
          match scanStr rest2 with
          | none => none
          | some (s, r) => some (d :: s, r)
    else
      match scanStr rest with
      | none => none
      | some (s, r) => some (c :: s, r)

/-- Numeric value of a decimal digit character. -/
def digitVal (c : Char) : Nat := c.toNat - 48

/-- Value of a big-endian digit-character list. -/
def digitsVal (l : List Char) : Nat := l.foldl (fun a c => a * 10 + digitVal c) 0

/-- Parse a leading run of decimal digits. -/
def parseNat (cs : List Char) : Option (Nat × List Char) :=
  match cs.takeWhile Char.isDigit, cs.dropWhile Char.isDigit with
  | [], _ => none
  | ds, rest => some (digitsVal ds, rest)

mutual

/-- Fuel-indexed recursive-descent parser for the modelled JSON grammar
(`JSON.parse`). `pV` parses one value, `pElems` the tail of a non-empty
array, `pFields` the tail of a non-empty object. -/
def pV : Nat → List Char → Option (JVal × List Char)
  | 0, _ => none
  | f + 1, cs =>
    match cs with
    | [] => none
    | c :: rest =>
      if c = 'n' then
        match rest with
        | 'u' :: 'l' :: 'l' :: r => some (.null, r)
        | _ => none
      else if c = 't' then
        match rest with
        | 'r' :: 'u' :: 'e' :: r => some (.bool true, r)
        | _ => none
      else if c = 'f' then
        match rest with
        | 'a' :: 'l' :: 's' :: 'e' :: r => some (.bool false, r)
        | _ => none
      else if c = '"' then
        match scanStr rest with
        | none => none
        | some (s, r) => some (.str (String.mk s), r)
      else if c = '-' then
        match parseNat rest with
        | none => none
        | some (n, r) => some (.num (-(n : Int)), r)
      else if c = '[' then
        if rest.head? = some ']' then some (.arr [], rest.tail)
        else
          match pElems f rest with
          | none => none
          | some (xs, r) => some (.arr xs, r)
      else if c = '{' then
        if rest.head? = some '}' then some (.obj [], rest.tail)
        else
          match pFields f rest with
          | none => none
          | some (fs, r) => some (.obj fs, r)
      else if c.isDigit then
        match parseNat (c :: rest) with
        | none => none
        | some (n, r) => some (.num (n : Int), r)
      else none

def pElems : Nat → List Char → Option (List JVal × List Char)
  | 0, _ => none
  | f + 1, cs =>
    match pV f cs with
    | none => none
    | some (v, r) =>
      match r with
      | ',' :: r2 =>
        match pElems f r2 with
        | none => none
        | some (xs, r3) => some (v :: xs, r3)
      | ']' :: r2 => some ([v], r2)
      | _ => none

def pFields : Nat → List Char → Option (List (String × JVal) × List Char)
  | 0, _ => none
  | f + 1, cs =>
    match cs with
    | '"' :: rest =>
      match scanStr rest with
      | none => none
      | some (k, r1) =>
        match r1 with
        | ':' :: r2 =>
          match pV f r2 with
          | none => none
          | some (v, r3) =>
            match r3 with
            | ',' :: r4 =>
              match pFields f r4 with
              | none => none
              | some (fs, r5) => some ((String.mk k, v) :: fs, r5)
            | '}' :: r4 => some ([(String.mk k, v)], r4)
            | _ => none
        | _ => none
    | _ => none

end

/-- `JSON.parse`, modelled: a full-input parse of the value grammar. -/
def jsonParse (s : String) : Option JVal :=
  match pV (s.data.length + 1) s.data with
  | some (v, []) => some v
  | _ => none

/-! ### Round trip of the modelled `JSON.stringify` / `JSON.parse` -/

/-- Digit-run guard: the continuation does not begin with a digit, so a
number token printed before it parses back maximally. -/
def restOk (l : List Char) : Bool :=
  match l with
  | [] => true
  | c :: _ => !c.isDigit

theorem digitChar_isDigit {d : Nat} (h : d < 10) : (Nat.digitChar d).isDigit = true := by
  interval_cases d <;> decide

theorem digitChar_val {e : Nat} (he : e < 10) : digitVal (Nat.digitChar e) = e := by
  interval_cases e <;> decide

theorem natChars_ne_nil (n : Nat) : natChars n ≠ [] := by
  rw [natChars_eq]
  by_cases h : n = 0
  · simp [h]
  · simp [h, Nat.digits_ne_nil_iff_ne_zero]

theorem natChars_digits {n : Nat} {c : Char} (h : c ∈ natChars n) : c.isDigit = true := by
  rw [natChars_eq] at h
  by_cases h0 : n = 0
  · rw [if_pos h0] at h
    simp only [List.mem_singleton] at h
    subst h; decide
  · rw [if_neg h0] at h
    simp only [List.mem_map, List.mem_reverse] at h
    obtain ⟨d, hd, rfl⟩ := h
    exact digitChar_isDigit (Nat.digits_lt_base (by norm_num) hd)

theorem digitsVal_natChars (n : Nat) : digitsVal (natChars n) = n := by
  by_cases h : n = 0
  · subst h; decide
  · rw [natChars_eq]
    unfold digitsVal
    rw [if_neg h, List.map_reverse, List.foldl_reverse, List.foldr_map]
    have key : ∀ (L : List Nat), (∀ d ∈ L, d < 10) →
        L.foldr (fun d a => a * 10 + digitVal (Nat.digitChar d)) 0 = Nat.ofDigits 10 L := by
      intro L
      induction L with
      | nil => intro _; simp [Nat.ofDigits_nil]
      | cons d t ih =>
        intro hmem
        have hd : d < 10 := hmem d (by simp)
        simp only [List.foldr_cons, Nat.ofDigits_cons,
          ih (fun x hx => hmem x (by simp [hx])), digitChar_val hd]
        ring
    rw [key (Nat.digits 10 n) (fun d hd => Nat.digits_lt_base (by norm_num) hd),
      Nat.ofDigits_digits]

theorem takeWhile_append_all {p : Char → Bool} :
    ∀ (l rest : List Char), (∀ c ∈ l, p c = true) →
      (∀ c, rest.head? = some c → p c = false) →
      (l ++ rest).takeWhile p = l ∧ (l ++ rest).dropWhile p = rest := by
  intro l
  induction l with
  | nil =>
    intro rest _ h2
    rcases rest with _ | ⟨c, t⟩
    · simp
    · have := h2 c rfl
      simp [List.takeWhile, List.dropWhile, this]
  | cons a l ih =>
    intro rest h1 h2
    have ha : p a = true := h1 a (by simp)
    have := ih rest (fun c hc => h1 c (by simp [hc])) h2
    simp [List.takeWhile, List.dropWhile, ha, this.1, this.2]

theorem parseNat_natChars (n : Nat) (rest : List Char) (hr : restOk rest = true) :
    parseNat (natChars n ++ rest) = some (n, rest) := by
  have hrest : ∀ c, rest.head? = some c → c.isDigit = false := by
    intro c hc
    rcases rest with _ | ⟨d, t⟩
    · simp at hc
    · simp only [List.head?_cons, Option.some.injEq] at hc
      subst hc
      simpa [restOk] using hr
  obtain ⟨h1, h2⟩ := takeWhile_append_all (natChars n) rest
    (fun c hc => natChars_digits hc) hrest
  obtain ⟨d, ds, hds⟩ := List.exists_cons_of_ne_nil (natChars_ne_nil n)
  rw [parseNat, h1, h2, hds]
  simp only []
  rw [← hds, digitsVal_natChars]

theorem scanStr_escape : ∀ (l rest : List Char),
    scanStr (l.foldr (fun c acc => escChar c ++ acc) [] ++ '"' :: rest) = some (l, rest) := by
  intro l
  induction l with
  | nil => intro rest; simp [scanStr.eq_def]
  | cons c t ih =>
    intro rest
    by_cases h : c = '"' ∨ c = '\\'
    · have hesc : escChar c = ['\\', c] := by simp [escChar, h]
      simp only [List.foldr_cons, hesc, List.cons_append, List.append_assoc]
      rw [scanStr.eq_def]
      have hu : unescChar c = some c := by
        rcases h with h | h <;> simp [unescChar, h]
      simp [hu, ih rest]
    · push_neg at h
      have hesc : escChar c = [c] := by simp [escChar, h.1, h.2]
      simp only [List.foldr_cons, hesc, List.cons_append]
      rw [scanStr.eq_def]
      simp [h.1, h.2, ih rest]

theorem sizeJ_pos (v : JVal) : 1 ≤ sizeJ v := by
  cases v <;> simp [sizeJ]

theorem strJ_head (v : JVal) : ∃ c cs, strJ v = c :: cs ∧ c ≠ ']' ∧ c ≠ '}' := by
  cases v with
  | null => exact ⟨'n', ['u', 'l', 'l'], by simp [strJ], by decide, by decide⟩
  | bool b =>
    cases b
    · exact ⟨'f', ['a', 'l', 's', 'e'], by simp [strJ], by decide, by decide⟩
    · exact ⟨'t', ['r', 'u', 'e'], by simp [strJ], by decide, by decide⟩
  | num n =>
    by_cases h : n < 0
    · exact ⟨'-', natChars n.natAbs, by simp [strJ, intChars, h], by decide, by decide⟩
    · obtain ⟨d, ds, hds⟩ := List.exists_cons_of_ne_nil (natChars_ne_nil n.natAbs)
      have hd : d.isDigit = true := @natChars_digits n.natAbs d (by rw [hds]; simp)
      refine ⟨d, ds, by simp [strJ, intChars, h, hds], ?_, ?_⟩
      · rintro rfl; exact absurd hd (by decide)
      · rintro rfl; exact absurd hd (by decide)
  | str s => exact ⟨'"', escStr s ++ ['"'], by simp [strJ], by decide, by decide⟩
  | arr xs => exact ⟨'[', strElems xs ++ [']'], by simp [strJ], by decide, by decide⟩
  | obj fs => exact ⟨'{', strFields fs ++ ['}'], by simp [strJ], by decide, by decide⟩

theorem parse_round : ∀ (f : Nat),
    (∀ (v : JVal) (rest : List Char), sizeJ v ≤ f → restOk rest = true →
       pV f (strJ v ++ rest) = some (v, rest)) ∧
    (∀ (xs : List JVal) (rest : List Char), xs ≠ [] → sizeL xs ≤ f → restOk rest = true →
       pElems f (strElems xs ++ ']' :: rest) = some (xs, rest)) ∧
    (∀ (fs : List (String × JVal)) (rest : List Char), fs ≠ [] → sizeF fs ≤ f →
       restOk rest = true →
       pFields f (strFields fs ++ '}' :: rest) = some (fs, rest)) := by
  intro f
  induction f with
  | zero =>
    refine ⟨?_, ?_, ?_⟩
    · intro v rest hs _
      have := sizeJ_pos v; omega
    · intro xs rest hne hs _
      rcases xs with _ | ⟨x, t⟩
      · exact absurd rfl hne
      · simp [sizeL] at hs
    · intro fs rest hne hs _
      rcases fs with _ | ⟨kv, t⟩
      · exact absurd rfl hne
      · simp [sizeF] at hs
  | succ f IH =>
    obtain ⟨ihV, ihE, ihF⟩ := IH
    refine ⟨?_, ?_, ?_⟩
    · intro v rest hs hr
      cases v with
      | null => simp [strJ, pV]
      | bool b => cases b <;> simp [strJ, pV]
      | num n =>
        by_cases hneg : n < 0
        · have hstr : strJ (.num n) = '-' :: natChars n.natAbs := by
            simp [strJ, intChars, hneg]
          rw [hstr, List.cons_append]
          simp only [pV, Char.reduceEq, reduceIte]
          rw [parseNat_natChars _ rest hr]
          have habs : -((n.natAbs : Int)) = n := by omega
          show some (JVal.num (-((n.natAbs : Nat) : Int)), rest) = some (JVal.num n, rest)
          rw [habs]
        · have h0 : (0 : Int) ≤ n := by omega
          obtain ⟨d, ds, hds⟩ := List.exists_cons_of_ne_nil (natChars_ne_nil n.natAbs)
          have hd : d.isDigit = true := @natChars_digits n.natAbs d (by rw [hds]; simp)
          have hstr : strJ (.num n) ++ rest = d :: (ds ++ rest) := by
            simp [strJ, intChars, hneg, hds]
          rw [hstr]
          have h1 : d ≠ 'n' := by rintro rfl; exact absurd hd (by decide)
          have h2 : d ≠ 't' := by rintro rfl; exact absurd hd (by decide)
          have h3 : d ≠ 'f' := by rintro rfl; exact absurd hd (by decide)
          have h4 : d ≠ '"' := by rintro rfl; exact absurd hd (by decide)
          have h5 : d ≠ '-' := by rintro rfl; exact absurd hd (by decide)
          have h6 : d ≠ '[' := by rintro rfl; exact absurd hd (by decide)
          have h7 : d ≠ '{' := by rintro rfl; exact absurd hd (by decide)
          simp only [pV, if_neg h1, if_neg h2, if_neg h3, if_neg h4, if_neg h5,
            if_neg h6, if_neg h7, hd, if_pos]
          rw [show d :: (ds ++ rest) = natChars n.natAbs ++ rest by rw [hds]; rfl]
          rw [parseNat_natChars _ rest hr]
          simp [Int.natAbs_of_nonneg h0]
      | str s =>
        have hstr : strJ (.str s) ++ rest =
            '"' :: (s.data.foldr (fun c acc => escChar c ++ acc) [] ++ '"' :: rest) := by
          simp [strJ, escStr]
        rw [hstr]
        simp only [pV, Char.reduceEq, reduceIte, scanStr_escape]
      | arr xs =>
        rcases xs with _ | ⟨x, t⟩
        · simp [strJ, strElems, pV]
        · have hform : strJ (.arr (x :: t)) ++ rest =
              '[' :: (strElems (x :: t) ++ ']' :: rest) := by
            simp [strJ]
          rw [hform]
          simp only [pV, Char.reduceEq, reduceIte]
          obtain ⟨c, cs, hc, hc1, _⟩ := strJ_head x
          have hhead : (strElems (x :: t) ++ ']' :: rest).head? = some c := by
            rcases t with _ | ⟨y, t'⟩ <;> simp [strElems, hc]
          rw [if_neg (by rw [hhead]; simp [hc1])]
          have hsz : sizeL (x :: t) ≤ f := by
            simp only [sizeJ] at hs; omega
          rw [ihE (x :: t) rest (by simp) hsz hr]
      | obj fs =>
        rcases fs with _ | ⟨kv, t⟩
        · simp [strJ, strFields, pV]
        · have hform : strJ (.obj (kv :: t)) ++ rest =
              '{' :: (strFields (kv :: t) ++ '}' :: rest) := by
            simp [strJ]
          rw [hform]
          simp only [pV, Char.reduceEq, reduceIte]
          have hhead : (strFields (kv :: t) ++ '}' :: rest).head? = some '"' := by
            rcases t with _ | ⟨kv2, t'⟩ <;> simp [strFields]
          rw [if_neg (by rw [hhead]; simp)]
          have hsz : sizeF (kv :: t) ≤ f := by
            simp only [sizeJ] at hs; omega
          rw [ihF (kv :: t) rest (by simp) hsz hr]
    · intro xs rest hne hs hr
      rcases xs with _ | ⟨x, t⟩
      · exact absurd rfl hne
      rcases t with _ | ⟨y, t'⟩
      · have h1 : strElems [x] ++ ']' :: rest = strJ x ++ ']' :: rest := by
          simp [strElems]
        have hsx : sizeJ x ≤ f := by simp only [sizeL] at hs; omega
        simp only [pElems, h1]
        rw [ihV x (']' :: rest) hsx (by rfl)]
        rfl
      · have h1 : strElems (x :: y :: t') ++ ']' :: rest =
            strJ x ++ (',' :: (strElems (y :: t') ++ ']' :: rest)) := by
          simp [strElems]
        have hsx : sizeJ x ≤ f := by
          simp only [sizeL] at hs ⊢; omega
        have hsyt : sizeL (y :: t') ≤ f := by
          have := sizeJ_pos x
          simp only [sizeL] at hs ⊢; omega
        simp only [pElems, h1]
        rw [ihV x _ hsx (by rfl)]
        simp only []
        rw [ihE (y :: t') rest (by simp) hsyt hr]
    · intro fs rest hne hs hr
      rcases fs with _ | ⟨⟨k, v⟩, t⟩
      · exact absurd rfl hne
      rcases t with _ | ⟨kv2, t'⟩
      · have h1 : strFields [(k, v)] ++ '}' :: rest =
            '"' :: (k.data.foldr (fun c acc => escChar c ++ acc) [] ++
              '"' :: (':' :: (strJ v ++ '}' :: rest))) := by
          simp [strFields, escStr]
        have hsv : sizeJ v ≤ f := by simp only [sizeF] at hs; omega
        simp only [pFields, h1]
        rw [scanStr_escape]
        simp only []
        rw [ihV v ('}' :: rest) hsv (by rfl)]
        rfl
      · have h1 : strFields ((k, v) :: kv2 :: t') ++ '}' :: rest =
            '"' :: (k.data.foldr (fun c acc => escChar c ++ acc) [] ++
              '"' :: (':' :: (strJ v ++ ',' :: (strFields (kv2 :: t') ++ '}' :: rest)))) := by
          simp [strFields, escStr]
        have hsv : sizeJ v ≤ f := by
          simp only [sizeF] at hs ⊢; omega
        have hst : sizeF (kv2 :: t') ≤ f := by
          have := sizeJ_pos v
          simp only [sizeF] at hs ⊢; omega
        simp only [pFields, h1]
        rw [scanStr_escape]
        simp only []
        rw [ihV v _ hsv (by rfl)]
        simp only []
        rw [ihF (kv2 :: t') rest (by simp) hst hr]

theorem strJ_length : ∀ (n : Nat),
    (∀ v, sizeJ v ≤ n → sizeJ v ≤ (strJ v).length) ∧
    (∀ xs, sizeL xs ≤ n → sizeL xs ≤ (strElems xs).length + 1) ∧
    (∀ fs, sizeF fs ≤ n → sizeF fs ≤ (strFields fs).length + 1) := by
  intro n
  induction n with
  | zero =>
    refine ⟨?_, ?_, ?_⟩
    · intro v hs; have := sizeJ_pos v; omega
    · intro xs hs
      rcases xs with _ | ⟨x, t⟩
      · simp [sizeL]
      · simp [sizeL] at hs
    · intro fs hs
      rcases fs with _ | ⟨kv, t⟩
      · simp [sizeF]
      · simp [sizeF] at hs
  | succ n IH =>
    obtain ⟨ihV, ihE, ihF⟩ := IH
    refine ⟨?_, ?_, ?_⟩
    · intro v hs
      cases v with
      | null => simp [strJ, sizeJ]
      | bool b => cases b <;> simp [strJ, sizeJ]
      | num m =>
        have h1 : intChars m ≠ [] := by
          unfold intChars
          by_cases h : m < 0
          · simp [h]
          · simp [h, natChars_ne_nil]
        have h2 : 1 ≤ (intChars m).length := by
          rcases List.exists_cons_of_ne_nil h1 with ⟨c, cs, hc⟩
          simp [hc]
        simp only [strJ, sizeJ]
        simpa using h2
      | str s => simp [strJ, sizeJ]
      | arr xs =>
        have hsz : sizeL xs ≤ n := by simp only [sizeJ] at hs; omega
        have := ihE xs hsz
        simp only [strJ, sizeJ, List.length_cons, List.length_append]
        simp
        omega
      | obj fs =>
        have hsz : sizeF fs ≤ n := by simp only [sizeJ] at hs; omega
        have := ihF fs hsz
        simp only [strJ, sizeJ, List.length_cons, List.length_append]
        simp
        omega
    · intro xs hs
      rcases xs with _ | ⟨x, t⟩
      · simp [sizeL]
      rcases t with _ | ⟨y, t'⟩
      · have hx : sizeJ x ≤ n := by simp only [sizeL] at hs; omega
        have := ihV x hx
        simp only [strElems, sizeL]
        omega
      · have hx : sizeJ x ≤ n := by
          have := sizeJ_pos y
          simp only [sizeL] at hs; omega
        have hyt : sizeL (y :: t') ≤ n := by
          have := sizeJ_pos x
          simp only [sizeL] at hs ⊢; omega
        have e1 := ihV x hx
        have e2 := ihE (y :: t') hyt
        simp only [sizeL] at hyt e2 ⊢
        simp only [strElems, List.length_append, List.length_cons]
        omega
    · intro fs hs
      rcases fs with _ | ⟨⟨k, v⟩, t⟩
      · simp [sizeF]
      rcases t with _ | ⟨kv2, t'⟩
      · have hv : sizeJ v ≤ n := by simp only [sizeF] at hs; omega
        have := ihV v hv
        simp only [strFields, sizeF, List.length_cons, List.length_append]
        omega
      · have hv : sizeJ v ≤ n := by
          have := sizeJ_pos kv2.2
          simp only [sizeF] at hs; omega
        have ht : sizeF (kv2 :: t') ≤ n := by
          have := sizeJ_pos v
          simp only [sizeF] at hs ⊢; omega
        have e1 := ihV v hv
        have e2 := ihF (kv2 :: t') ht
        simp only [sizeF] at ht e2 ⊢
        simp only [strFields, List.length_append, List.length_cons]
        omega

theorem sizeJ_le_length (v : JVal) : sizeJ v ≤ (strJ v).length :=
  (strJ_length (sizeJ v)).1 v le_rfl

/-- `JSON.parse` inverts `JSON.stringify` on every modelled JSON value. -/
theorem jsonParse_stringify (v : JVal) : jsonParse (jsonStringify v) = some v := by
  unfold jsonParse jsonStringify
  have h := (parse_round ((strJ v).length + 1)).1 v []
    (by have := sizeJ_le_length v; omega) (by rfl)
  rw [List.append_nil] at h
  show (match pV ((strJ v).length + 1) (strJ v) with
        | some (v, []) => some v
        | _ => none) = some v
  rw [h]

theorem strJ_inj {a b : JVal} (h : strJ a = strJ b) : a = b := by
  have ha := jsonParse_stringify a
  have hb := jsonParse_stringify b
  rw [show jsonStringify a = jsonStringify b from congrArg String.mk h, hb] at ha
  exact (Option.some.inj ha).symm

instance : DecidableEq JVal := fun a b =>
  decidable_of_iff (strJ a = strJ b) ⟨fun h => strJ_inj h, fun h => by rw [h]⟩

/-! ### Idealised AEAD cipher (the platform `crypto.subtle` AES-GCM)

The cipher is modelled as CTR-mode keystream XOR plus an authentication
tag; the tag binds key, nonce and ciphertext injectively, so decryption
with a wrong key always fails (the real AES-GCM fails except with
negligible probability). Keys are natural numbers (symbolic key codes). -/

/-- Injective numeric code of a code list (base `2^32`, leading 1). -/
def encB (l : List Nat) : Nat := l.foldl (fun a b => a * 4294967296 + b) 1

theorem encB_append (l : List Nat) (b : Nat) :
    encB (l ++ [b]) = encB l * 4294967296 + b := by
  unfold encB
  rw [List.foldl_append]
  rfl

theorem encB_pos (l : List Nat) : 1 ≤ encB l := by
  suffices h : ∀ (l : List Nat) (a : Nat), 1 ≤ a →
      1 ≤ l.foldl (fun x y => x * 4294967296 + y) a by
    exact h l 1 le_rfl
  intro l
  induction l with
  | nil => intro a ha; exact ha
  | cons b t ih =>
    intro a ha
    exact ih _ (by nlinarith)

/-- Base-`2^32` decoder: a left inverse of `encB` on bounded lists. -/
def decB (n : Nat) : List Nat :=
  if h : n ≤ 1 then [] else decB (n / 4294967296) ++ [n % 4294967296]
decreasing_by exact Nat.div_lt_self (by omega) (by norm_num)

theorem decB_encB : ∀ (l : List Nat), (∀ b ∈ l, b < 4294967296) → decB (encB l) = l := by
  intro l
  induction l using List.reverseRecOn with
  | nil =>
    intro _
    have : encB [] = 1 := rfl
    rw [this, decB]
    simp
  | append_singleton t b ih =>
    intro hmem
    have hb : b < 4294967296 := hmem b (by simp)
    have ht : ∀ x ∈ t, x < 4294967296 := fun x hx => hmem x (by simp [hx])
    have hpos := encB_pos t
    rw [encB_append, decB]
    have hgt : ¬(encB t * 4294967296 + b ≤ 1) := by nlinarith
    rw [dif_neg hgt]
    have hdiv : (encB t * 4294967296 + b) / 4294967296 = encB t := by omega
    have hmod : (encB t * 4294967296 + b) % 4294967296 = b := by omega
    rw [hdiv, hmod, ih ht]

theorem encB_inj {l1 l2 : List Nat} (h1 : ∀ b ∈ l1, b < 4294967296)
    (h2 : ∀ b ∈ l2, b < 4294967296) (h : encB l1 = encB l2) : l1 = l2 := by
  have := decB_encB l1 h1
  rw [h, decB_encB l2 h2] at this
  exact this.symm

theorem char_toNat_lt (c : Char) : c.toNat < 4294967296 := by
  have := c.val.val.isLt
  simpa [Char.toNat, UInt32.toNat] using this

/-- Numeric code of a string: the code points, injectively packed. -/
def strCode (s : String) : Nat := encB (s.data.map Char.toNat)

theorem strCode_inj {s t : String} (h : strCode s = strCode t) : s = t := by
  have hmap := @encB_inj (s.data.map Char.toNat) (t.data.map Char.toNat)
    (by intro b hb; simp only [List.mem_map] at hb; obtain ⟨c, _, rfl⟩ := hb
        exact char_toNat_lt c)
    (by intro b hb; simp only [List.mem_map] at hb; obtain ⟨c, _, rfl⟩ := hb
        exact char_toNat_lt c) h
  have hdata : s.data = t.data := by
    have hinj : Function.Injective Char.toNat := by
      intro c d hcd
      rw [← Char.ofNat_toNat c, ← Char.ofNat_toNat d, hcd]
    exact List.map_injective_iff.mpr hinj hmap
  calc s = String.mk s.data := rfl
    _ = String.mk t.data := by rw [hdata]
    _ = t := rfl

/-- Keystream byte `i` of the modelled CTR mode (stands in for the AES
counter blocks; any fixed function works for the formal properties). -/
def ks (key iv i : Nat) : Nat := (key + iv * 131 + i * 17 + 23) % 256

/-- XOR a keystream over a code list, starting at counter `i`. -/
def xorStream (key iv : Nat) : Nat → List Nat → List Nat
  | _, [] => []
  | i, b :: t => (b ^^^ ks key iv i) :: xorStream key iv (i + 1) t

theorem xorStream_involutive (key iv : Nat) :
    ∀ (i : Nat) (l : List Nat), xorStream key iv i (xorStream key iv i l) = l := by
  intro i l
  induction l generalizing i with
  | nil => simp [xorStream]
  | cons b t ih =>
    simp [xorStream, Nat.xor_cancel_right, ih]

/-- Authentication tag: binds key, nonce and ciphertext injectively
(idealised GCM tag). -/
def gcmTag (key iv : Nat) (ct : List Nat) : Nat :=
  Nat.pair key (Nat.pair iv (encB ct))

/-- `crypto.subtle.encrypt` with AES-GCM: ciphertext bytes followed by
the authentication tag. -/
def aesGcmEncrypt (key iv : Nat) (pt : List Nat) : List Nat :=
  xorStream key iv 0 pt ++ [gcmTag key iv (xorStream key iv 0 pt)]

/-- `crypto.subtle.decrypt` with AES-GCM: checks the tag, then undoes the
keystream; fails (`none`, modelling the thrown `OperationError`) on tag
mismatch. -/
def aesGcmDecrypt (key iv : Nat) (data : List Nat) : Option (List Nat) :=
  match data.reverse with
  | [] => none
  | t :: rev =>
    if t = gcmTag key iv rev.reverse then some (xorStream key iv 0 rev.reverse)
    else none

theorem aesGcmDecrypt_encrypt (key iv : Nat) (pt : List Nat) :
    aesGcmDecrypt key iv (aesGcmEncrypt key iv pt) = some pt := by
  unfold aesGcmEncrypt aesGcmDecrypt
  rw [List.reverse_append]
  simp [xorStream_involutive]

theorem aesGcmDecrypt_wrong_key {key key2 iv iv2 : Nat} (pt : List Nat)
    (h : key2 ≠ key) :
    aesGcmDecrypt key2 iv2 (aesGcmEncrypt key iv pt) = none := by
  unfold aesGcmEncrypt aesGcmDecrypt
  rw [List.reverse_append]
  simp only [List.reverse_cons, List.reverse_nil, List.nil_append,
    List.singleton_append, List.reverse_reverse]
  rw [if_neg]
  intro hc
  unfold gcmTag at hc
  have := (Nat.pair_eq_pair.mp hc).1
  exact h this.symm

/-! ### Association-list model of JavaScript objects / `chrome.storage.local` -/

/-- A `chrome.storage.local` state (or a JS object): ordered key-value
pairs; `jget` is property access, `jset` is property assignment. -/
abbrev St := List (String × JVal)

/-- Property read (`obj[key]`): first matching key, `none` = `undefined`. -/
def jget : List (String × JVal) → String → Option JVal
  | [], _ => none
  | (k0, v0) :: t, k => if k0 = k then some v0 else jget t k

/-- Property assignment (`obj[key] = v`): replace in place or append. -/
def jset : List (String × JVal) → String → JVal → List (String × JVal)
  | [], k, v => [(k, v)]
  | (k0, v0) :: t, k, v =>
      if k0 = k then (k0, v) :: t else (k0, v0) :: jset t k v

/-- `chrome.storage.local.set`: merge an update object into the store,
assigning each of its entries in order. -/
def jsetAll (st upd : St) : St := upd.foldl (fun s kv => jset s kv.1 kv.2) st

theorem jget_jset_self (st : St) (k : String) (v : JVal) :
    jget (jset st k v) k = some v := by
  induction st with
  | nil => simp [jget, jset]
  | cons kv t ih =>
    obtain ⟨k0, v0⟩ := kv
    by_cases h : k0 = k
    · simp [jget, jset, h]
    · simp [jget, jset, h, ih]

theorem jget_jset_ne (st : St) {k k2 : String} (v : JVal) (h : k2 ≠ k) :
    jget (jset st k v) k2 = jget st k2 := by
  induction st with
  | nil => simp [jget, jset, Ne.symm h]
  | cons kv t ih =>
    obtain ⟨k0, v0⟩ := kv
    by_cases h0 : k0 = k
    · subst h0
      simp [jget, jset, Ne.symm h]
    · simp only [jset, if_neg h0]
      by_cases h2 : k0 = k2
      · simp [jget, h2]
      · simp [jget, h2, ih]

theorem jget_none_of_not_mem (st : St) (k : String)
    (h : k ∉ st.map Prod.fst) : jget st k = none := by
  induction st with
  | nil => rfl
  | cons kv t ih =>
    obtain ⟨k0, v0⟩ := kv
    simp only [List.map_cons, List.mem_cons] at h
    push_neg at h
    simp [jget, Ne.symm h.1, ih h.2]

theorem jget_jsetAll_none : ∀ (upd st : St) (k : String),
    jget upd k = none → jget (jsetAll st upd) k = jget st k := by
  intro upd
  induction upd with
  | nil => intro st k _; rfl
  | cons kv t ih =>
    intro st k h
    obtain ⟨k0, v0⟩ := kv
    simp only [jget] at h
    by_cases h0 : k0 = k
    · simp [h0] at h
    · simp only [if_neg h0] at h
      show jget (jsetAll (jset st k0 v0) t) k = jget st k
      rw [ih _ _ h, jget_jset_ne _ _ (fun hc => h0 hc.symm)]

theorem jget_jsetAll_some : ∀ (upd st : St) (k : String) (v : JVal),
    (upd.map Prod.fst).Nodup → jget upd k = some v →
    jget (jsetAll st upd) k = some v := by
  intro upd
  induction upd with
  | nil => intro st k v _ h; simp [jget] at h
  | cons kv t ih =>
    intro st k v hnd h
    obtain ⟨k0, v0⟩ := kv
    simp only [List.map_cons, List.nodup_cons] at hnd
    by_cases h0 : k0 = k
    · subst h0
      have h2 : v0 = v := by simpa [jget] using h
      subst h2
      show jget (jsetAll (jset st k0 v0) t) k0 = some v0
      rw [jget_jsetAll_none _ _ _ (jget_none_of_not_mem _ _ hnd.1), jget_jset_self]
    · simp only [jget, if_neg h0] at h
      show jget (jsetAll (jset st k0 v0) t) k = some v
      exact ih _ _ _ hnd.2 h

/-! ### Encryption envelopes (`src/lib/password/index.js`) -/

/-- `TextEncoder.encode`, modelled as the code points of the string. -/
def strToCodes (s : String) : List Nat := s.data.map Char.toNat

/-- `TextDecoder.decode`, the inverse coding. -/
def codesToStr (l : List Nat) : String := String.mk (l.map Char.ofNat)

theorem codesToStr_strToCodes (s : String) : codesToStr (strToCodes s) = s := by
  unfold codesToStr strToCodes
  rw [List.map_map]
  have : (Char.ofNat ∘ Char.toNat) = id := by
    funext c
    exact Char.ofNat_toNat c
  rw [this, List.map_id]

/-- A byte array serialised the way `Array.from(new Uint8Array(..))` is
stored: a JSON array of numbers. -/
def jnumList (l : List Nat) : JVal := .arr (l.map fun (b : Nat) => .num (b : Int))

def asNatListAux : List JVal → Option (List Nat)
  | [] => some []
  | .num n :: t => (asNatListAux t).map (fun l => n.toNat :: l)
  | _ :: _ => none

/-- Read back a stored byte array (`new Uint8Array(value)`). -/
def asNatList : JVal → Option (List Nat)
  | .arr xs => asNatListAux xs
  | _ => none

theorem asNatListAux_map (l : List Nat) :
    asNatListAux (l.map fun (b : Nat) => JVal.num (b : Int)) = some l := by
  induction l with
  | nil => rfl
  | cons b t ih => simp [asNatListAux, ih]

theorem asNatList_jnumList (l : List Nat) : asNatList (jnumList l) = some l := by
  simp [asNatList, jnumList, asNatListAux_map]

/-- Read back the stored IV (`new Uint8Array(encryptedObj.iv)`). -/
def getIv : JVal → Option Nat
  | .arr [.num n] => some n.toNat
  | _ => none

/-- `encryptData` (src/lib/password/index.js): encode the plaintext,
draw a fresh IV (the `iv` argument), AES-GCM-encrypt, and return the
`{iv, data}` envelope as a JS object. -/
def encryptData (data : String) (key iv : Nat) : JVal :=
  .obj [("iv", .arr [.num (iv : Int)]),
        ("data", jnumList (aesGcmEncrypt key iv (strToCodes data)))]

/-- `decryptData` (src/lib/password/index.js): AES-GCM-decrypt the
`{iv, data}` envelope and decode; `none` models the thrown error. -/
def decryptData (v : JVal) (key : Nat) : Option String :=
  match v with
  | .obj fs =>
    match jget fs "iv", jget fs "data" with
    | some ivv, some dv =>
      match getIv ivv, asNatList dv with
      | some iv, some bytes => (aesGcmDecrypt key iv bytes).map codesToStr
      | _, _ => none
    | _, _ => none
  | _ => none

theorem decryptData_encryptData (s : String) (key iv : Nat) :
    decryptData (encryptData s key iv) key = some s := by
  unfold decryptData encryptData
  simp only [jget, String.reduceEq, reduceIte, getIv, asNatList_jnumList,
    Int.toNat_natCast, aesGcmDecrypt_encrypt]
  simp [codesToStr_strToCodes]

theorem decryptData_encryptData_wrong_key (s : String) {key key2 : Nat} (iv : Nat)
    (h : key2 ≠ key) :
    decryptData (encryptData s key iv) key2 = none := by
  unfold decryptData encryptData
  simp only [jget, String.reduceEq, reduceIte, getIv, asNatList_jnumList,
    Int.toNat_natCast, aesGcmDecrypt_wrong_key _ h]
  rfl

/-! ### Key derivation and anti-stealer storage encryption
(`src/lib/key/index.js`) -/

/-- JavaScript truthiness on modelled JSON values. -/
def jTruthy : JVal → Bool
  | .null => false
  | .bool b => b
  | .num n => decide (n ≠ 0)
  | .str s => decide (s ≠ "")
  | .arr _ => true
  | .obj _ => true

/-- Two hexadecimal digits of a byte (`byte.toString(16).padStart(2, '0')`). -/
def hexByte (b : Nat) : List Char := [Nat.digitChar (b / 16 % 16), Nat.digitChar (b % 16)]

/-- `toHexString` (src/lib/key/index.js): hex dump of a byte list. -/
def toHexString (bytes : List Nat) : List Char :=
  bytes.foldl (fun acc b => acc ++ hexByte b) []

/-- Result of `generateKeyFromSeedBytes`: the imported AES-GCM key (as a
symbolic key code) plus the derived hex key pair. -/
structure KeyBundle where
  encryptionKey : Nat
  privateKey : String
  publicKey : String

/-- `generateKeyFromSeedBytes` (src/lib/key/index.js): requires at least
64 seed bytes; AES key material is the first 32 bytes; the two 32-byte
halves become the hex key pair. `none` models the thrown error. -/
def generateKeyFromSeedBytes (seed : List Nat) : Option KeyBundle :=
  if seed.length < 64 then none
  else some
    { encryptionKey := encB (seed.take 32)
      privateKey := String.mk ('0' :: 'x' :: toHexString (seed.take 32))
      publicKey := String.mk ('0' :: 'x' :: toHexString ((seed.drop 32).take 32)) }

/-- PBKDF2 (`crypto.subtle.deriveKey`), modelled as an injective symbolic
function of password, salt and iteration count. -/
def pbkdf2Key (password salt : String) (iterations : Nat) : Nat :=
  Nat.pair (strCode password) (Nat.pair (strCode salt) iterations)

theorem pbkdf2Key_inj {p1 p2 s : String} {i : Nat} (h : p1 ≠ p2) :
    pbkdf2Key p1 s i ≠ pbkdf2Key p2 s i := by
  intro hc
  exact h (strCode_inj (Nat.pair_eq_pair.mp hc).1)

/-- `generateStorageEncryptionKey` (src/lib/key/index.js): the
whole-storage key, PBKDF2 with a dedicated salt and 250000 iterations. -/
def generateStorageEncryptionKey (seedPhrase : String) : Nat :=
  pbkdf2Key seedPhrase "SecureSphere-LocalStorage-Protection-v1" 250000

/-- `encryptStorageData` (src/lib/key/index.js): stringify non-string
values, AES-GCM-encrypt, and wrap with the `encrypted`/`version`/
`timestamp` metadata. -/
def encryptStorageData (data : JVal) (storageKey iv now : Nat) : JVal :=
  let dataString := match data with | .str s => s | _ => jsonStringify data
  .obj [("encrypted", .bool true), ("version", .str "1.0"),
        ("iv", .arr [.num (iv : Int)]),
        ("data", jnumList (aesGcmEncrypt storageKey iv (strToCodes dataString))),
        ("timestamp", .num (now : Int))]

/-- `decryptStorageData` (src/lib/key/index.js): values that do not look
like envelopes pass through unchanged (legacy data); envelopes are
decrypted and the plaintext is `JSON.parse`d when possible, else kept as
a string. `none` models the thrown error. -/
def decryptStorageData (v : JVal) (storageKey : Nat) : Option JVal :=
  match v with
  | .obj fs =>
    match jget fs "encrypted" with
    | none => some v
    | some e =>
      if jTruthy e then
        if jTruthy ((jget fs "iv").getD .null) && jTruthy ((jget fs "data").getD .null) then
          match getIv ((jget fs "iv").getD .null), asNatList ((jget fs "data").getD .null) with
          | some iv, some bytes =>
            match aesGcmDecrypt storageKey iv bytes with
            | none => none
            | some codes =>
              match jsonParse (codesToStr codes) with
              | some j => some j
              | none => some (.str (codesToStr codes))
          | _, _ => none
        else none
      else some v
  | _ => some v

theorem decryptStorage_reduce (ds : String) (key iv now : Nat) :
    decryptStorageData (.obj [("encrypted", .bool true), ("version", .str "1.0"),
      ("iv", .arr [.num (iv : Int)]),
      ("data", jnumList (aesGcmEncrypt key iv (strToCodes ds))),
      ("timestamp", .num (now : Int))]) key =
      (match jsonParse ds with | some j => some j | none => some (.str ds)) := by
  unfold decryptStorageData
  simp only [jget, String.reduceEq, reduceIte, jTruthy, jnumList, Option.getD,
    getIv, asNatList_jnumList, Int.toNat_natCast, aesGcmDecrypt_encrypt,
    codesToStr_strToCodes, Bool.and_self]
  rw [show asNatList (JVal.arr ((aesGcmEncrypt key iv (strToCodes ds)).map
    fun (b : Nat) => JVal.num (b : Int))) = some (aesGcmEncrypt key iv (strToCodes ds))
    from asNatList_jnumList _]
  simp only [aesGcmDecrypt_encrypt, codesToStr_strToCodes]

/-- Round trip of the storage envelope: non-string values come back
structurally equal; strings come back `JSON.parse`d when they are valid
JSON, and unchanged otherwise. -/
theorem decryptStorageData_encryptStorageData (v : JVal) (key iv now : Nat) :
    decryptStorageData (encryptStorageData v key iv now) key =
      some (match v with
            | .str s => (match jsonParse s with | some j => j | none => .str s)
            | _ => v) := by
  cases v with
  | str s =>
    show decryptStorageData (.obj [("encrypted", .bool true), ("version", .str "1.0"),
      ("iv", .arr [.num (iv : Int)]),
      ("data", jnumList (aesGcmEncrypt key iv (strToCodes s))),
      ("timestamp", .num (now : Int))]) key = _
    rw [decryptStorage_reduce]
    cases h : jsonParse s <;> simp [h]
  | null =>
    show decryptStorageData (.obj [("encrypted", .bool true), ("version", .str "1.0"),
      ("iv", .arr [.num (iv : Int)]),
      ("data", jnumList (aesGcmEncrypt key iv (strToCodes (jsonStringify .null)))),
      ("timestamp", .num (now : Int))]) key = _
    rw [decryptStorage_reduce, jsonParse_stringify]
  | bool b =>
    show decryptStorageData (.obj [("encrypted", .bool true), ("version", .str "1.0"),
      ("iv", .arr [.num (iv : Int)]),
      ("data", jnumList (aesGcmEncrypt key iv (strToCodes (jsonStringify (.bool b))))),
      ("timestamp", .num (now : Int))]) key = _
    rw [decryptStorage_reduce, jsonParse_stringify]
  | num n =>
    show decryptStorageData (.obj [("encrypted", .bool true), ("version", .str "1.0"),
      ("iv", .arr [.num (iv : Int)]),
      ("data", jnumList (aesGcmEncrypt key iv (strToCodes (jsonStringify (.num n))))),
      ("timestamp", .num (now : Int))]) key = _
    rw [decryptStorage_reduce, jsonParse_stringify]
  | arr xs =>
    show decryptStorageData (.obj [("encrypted", .bool true), ("version", .str "1.0"),
      ("iv", .arr [.num (iv : Int)]),
      ("data", jnumList (aesGcmEncrypt key iv (strToCodes (jsonStringify (.arr xs))))),
      ("timestamp", .num (now : Int))]) key = _
    rw [decryptStorage_reduce, jsonParse_stringify]
  | obj fs =>
    show decryptStorageData (.obj [("encrypted", .bool true), ("version", .str "1.0"),
      ("iv", .arr [.num (iv : Int)]),
      ("data", jnumList (aesGcmEncrypt key iv (strToCodes (jsonStringify (.obj fs))))),
      ("timestamp", .num (now : Int))]) key = _
    rw [decryptStorage_reduce, jsonParse_stringify]

/-- The metadata keys that are never encrypted (`skipEncryption` /
`skipDecryption` in src/lib/key/index.js). -/
def skipEncryption : List String := ["firstTimeSetup", "hasEncryptedStorage", "storageVersion"]

/-- The per-item loop of `secureStorageSet`: build the `encryptedItems`
object by property assignment, encrypting every non-allowlisted value
with a fresh IV. -/
def encryptLoop : List (String × JVal) → Nat → (Nat → Nat) → Nat → St → Nat → St
  | [], _, _, _, acc, _ => acc
  | (k, v) :: t, key, ivs, now, acc, i =>
      encryptLoop t key ivs now
        (jset acc k (if k ∈ skipEncryption then v else encryptStorageData v key (ivs i) now))
        (i + 1)

/-- `secureStorageSet` (src/lib/key/index.js): encrypt each item unless
allowlisted, stamp `hasEncryptedStorage`/`storageVersion`, and merge the
batch into the store. -/
def secureStorageSet (items : List (String × JVal)) (storageKey : Nat)
    (ivs : Nat → Nat) (now : Nat) (st : St) : St :=
  let enc := encryptLoop items storageKey ivs now [] 0
  let enc2 := jset (jset enc "hasEncryptedStorage" (.bool true)) "storageVersion" (.str "1.0")
  jsetAll st enc2

/-- `secureStorageGet` (src/lib/key/index.js): read the requested keys,
decrypting every found value unless allowlisted; a decryption failure
rejects the whole read (`none`). -/
def secureStorageGet (keys : List String) (st : St) (storageKey : Nat) :
    Option (List (String × JVal)) :=
  match keys with
  | [] => some []
  | k :: t =>
    match secureStorageGet t st storageKey with
    | none => none
    | some acc =>
      match jget st k with
      | none => some acc
      | some v =>
        if k ∈ skipEncryption then some ((k, v) :: acc)
        else
          match decryptStorageData v storageKey with
          | none => none
          | some d => some ((k, d) :: acc)

/-- The per-entry loop of `migrateToEncryptedStorage`: copy allowlisted
entries, drop `null` values, and encrypt the rest. -/
def migrateLoop : List (String × JVal) → Nat → (Nat → Nat) → Nat → St → Nat → St
  | [], _, _, _, acc, _ => acc
  | (k, v) :: t, key, ivs, now, acc, i =>
    if k ∈ skipEncryption then migrateLoop t key ivs now (jset acc k v) i
    else if v = JVal.null then migrateLoop t key ivs now acc i
    else migrateLoop t key ivs now (jset acc k (encryptStorageData v key (ivs i) now)) (i + 1)

/-- `migrateToEncryptedStorage` (src/lib/key/index.js): a no-op when the
`hasEncryptedStorage` marker is already truthy; otherwise re-writes every
entry encrypted and stamps the markers. Returns (success, new state). -/
def migrateToEncryptedStorage (storageKey : Nat) (ivs : Nat → Nat) (now : Nat)
    (st : St) : Bool × St :=
  if jTruthy ((jget st "hasEncryptedStorage").getD .null) then (true, st)
  else
    let enc := migrateLoop st storageKey ivs now [] 0
    let enc2 := jset (jset enc "hasEncryptedStorage" (.bool true)) "storageVersion" (.str "1.0")
    (true, jsetAll st enc2)

/-- `verifyStorageEncryption` (src/lib/key/index.js): round-trip a fixed
test payload and compare the `JSON.stringify` images. -/
def verifyStorageEncryption (storageKey iv now : Nat) : Bool :=
  let testData : JVal := .obj [("test", .str "encryption_test"),
    ("timestamp", .num (now : Int)),
    ("array", .arr [.num 1, .num 2, .num 3]),
    ("object", .obj [("nested", .bool true)])]
  match decryptStorageData (encryptStorageData testData storageKey iv now) storageKey with
  | none => false
  | some decrypted => jsonStringify testData == jsonStringify decrypted

theorem verifyStorageEncryption_true (storageKey iv now : Nat) :
    verifyStorageEncryption storageKey iv now = true := by
  unfold verifyStorageEncryption
  show (match decryptStorageData
      (encryptStorageData (JVal.obj [("test", .str "encryption_test"),
        ("timestamp", .num (now : Int)),
        ("array", .arr [.num 1, .num 2, .num 3]),
        ("object", .obj [("nested", .bool true)])]) storageKey iv now) storageKey with
    | none => false
    | some decrypted =>
        jsonStringify (JVal.obj [("test", .str "encryption_test"),
          ("timestamp", .num (now : Int)),
          ("array", .arr [.num 1, .num 2, .num 3]),
          ("object", .obj [("nested", .bool true)])]) == jsonStringify decrypted) = true
  rw [decryptStorageData_encryptStorageData]
  exact beq_self_eq_true _

/-! #### Lookup lemmas for the storage loops -/

theorem jset_keys_subset (st : St) (k : String) (v : JVal) :
    ∀ x ∈ (jset st k v).map Prod.fst, x ∈ st.map Prod.fst ∨ x = k := by
  induction st with
  | nil => intro x hx; simp [jset] at hx; simp [hx]
  | cons kv t ih =>
    obtain ⟨k0, v0⟩ := kv
    intro x hx
    by_cases h0 : k0 = k
    · simp only [jset, if_pos h0, List.map_cons, List.mem_cons] at hx
      rcases hx with hx | hx <;> simp [hx]
    · simp only [jset, if_neg h0, List.map_cons, List.mem_cons] at hx
      rcases hx with hx | hx
      · simp [hx]
      · rcases ih x hx with h | h
        · simp [h]
        · simp [h]

theorem jset_keys_nodup (st : St) (k : String) (v : JVal)
    (h : (st.map Prod.fst).Nodup) : ((jset st k v).map Prod.fst).Nodup := by
  induction st with
  | nil => simp [jset]
  | cons kv t ih =>
    obtain ⟨k0, v0⟩ := kv
    simp only [List.map_cons, List.nodup_cons] at h
    by_cases h0 : k0 = k
    · simp only [jset, if_pos h0, List.map_cons, List.nodup_cons]
      exact ⟨h.1, h.2⟩
    · simp only [jset, if_neg h0, List.map_cons, List.nodup_cons]
      refine ⟨?_, ih h.2⟩
      intro hc
      rcases jset_keys_subset t k v k0 hc with hmem | heq
      · exact h.1 hmem
      · exact h0 heq

theorem encryptLoop_nodup (items : List (String × JVal)) (key : Nat)
    (ivs : Nat → Nat) (now : Nat) :
    ∀ (acc : St) (i : Nat), ((acc.map Prod.fst).Nodup) →
      ((encryptLoop items key ivs now acc i).map Prod.fst).Nodup := by
  induction items with
  | nil => intro acc i h; exact h
  | cons kv t ih =>
    obtain ⟨k, v⟩ := kv
    intro acc i h
    exact ih _ _ (jset_keys_nodup _ _ _ h)

theorem migrateLoop_nodup (entries : List (String × JVal)) (key : Nat)
    (ivs : Nat → Nat) (now : Nat) :
    ∀ (acc : St) (i : Nat), ((acc.map Prod.fst).Nodup) →
      ((migrateLoop entries key ivs now acc i).map Prod.fst).Nodup := by
  induction entries with
  | nil => intro acc i h; exact h
  | cons kv t ih =>
    obtain ⟨k, v⟩ := kv
    intro acc i h
    by_cases hk : k ∈ skipEncryption
    · simp only [migrateLoop, if_pos hk]
      exact ih _ _ (jset_keys_nodup _ _ _ h)
    · by_cases hv : v = JVal.null
      · simp only [migrateLoop, if_neg hk, if_pos hv]
        exact ih _ _ h
      · simp only [migrateLoop, if_neg hk, if_neg hv]
        exact ih _ _ (jset_keys_nodup _ _ _ h)

theorem jget_encryptLoop_not_mem : ∀ (items : List (String × JVal)) (key : Nat)
    (ivs : Nat → Nat) (now : Nat) (k : String) (acc : St) (i : Nat),
    k ∉ items.map Prod.fst →
    jget (encryptLoop items key ivs now acc i) k = jget acc k := by
  intro items
  induction items with
  | nil => intro key ivs now k acc i _; rfl
  | cons kv t ih =>
    obtain ⟨k0, v0⟩ := kv
    intro key ivs now k acc i hk
    simp only [List.map_cons, List.mem_cons] at hk
    push_neg at hk
    show jget (encryptLoop t key ivs now
      (jset acc k0 (if k0 ∈ skipEncryption then v0
        else encryptStorageData v0 key (ivs i) now)) (i + 1)) k = jget acc k
    rw [ih key ivs now k _ (i + 1) hk.2, jget_jset_ne _ _ hk.1]

theorem jget_encryptLoop_of_get? : ∀ (items : List (String × JVal)) (key : Nat)
    (ivs : Nat → Nat) (now : Nat) (idx : Nat) (k : String) (v : JVal) (acc : St) (i : Nat),
    items.get? idx = some (k, v) → ((items.map Prod.fst).Nodup) →
    jget (encryptLoop items key ivs now acc i) k =
      some (if k ∈ skipEncryption then v
            else encryptStorageData v key (ivs (i + idx)) now) := by
  intro items
  induction items with
  | nil => intro key ivs now idx k v acc i h; simp at h
  | cons kv t ih =>
    obtain ⟨k0, v0⟩ := kv
    intro key ivs now idx k v acc i hget hnd
    simp only [List.map_cons, List.nodup_cons] at hnd
    rcases idx with _ | j
    · simp only [List.get?_cons_zero, Option.some.injEq, Prod.mk.injEq] at hget
      obtain ⟨hk0, hv0⟩ := hget
      subst hk0
      subst hv0
      show jget (encryptLoop t key ivs now
        (jset acc k0 (if k0 ∈ skipEncryption then v0
          else encryptStorageData v0 key (ivs i) now)) (i + 1)) k0 = _
      rw [jget_encryptLoop_not_mem t key ivs now k0 _ (i + 1) hnd.1, jget_jset_self]
      simp
    · simp only [List.get?_cons_succ] at hget
      show jget (encryptLoop t key ivs now
        (jset acc k0 (if k0 ∈ skipEncryption then v0
          else encryptStorageData v0 key (ivs i) now)) (i + 1)) k = _
      rw [ih key ivs now j k v _ (i + 1) hget hnd.2]
      have harith : i + 1 + j = i + (j + 1) := by omega
      rw [harith]

/-! ### Authentication service: sessions and the PIN vault
(`AuthService`, src/unnamed/part_003; module-level copies in part_001) -/

/-- The in-memory session record (`currentUserSession`). -/
structure UserSession where
  seedPhrase : String
  timestamp : Nat
  isActive : Bool
deriving DecidableEq

/-- The mutable fields of `AuthService`: session, resident storage key,
and timeout (milliseconds). -/
structure AuthState where
  currentUserSession : Option UserSession
  currentStorageKey : Option Nat
  sessionTimeout : Int
deriving DecidableEq

/-- `envLoader.getDefaultConfig().ENCRYPTION_ITERATIONS`
(src/unnamed/part_009, `env-loader.js`). -/
def defaultEncryptionIterations : Nat := 100000

/-- `ENV.get('ENCRYPTION_ITERATIONS')` (src/unnamed/part_008,
`environment.js`, backed by the loader in src/unnamed/part_009): before
`initialize()` completes, `get` reads `getDefaultConfig()` directly;
afterwards it reads the merged configuration
`{...defaults, ...storageConfig, ...loadFromEnv()}`, where
`loadFromEnv()` always returns `{}` and `storageConfig` is the stored
`envConfig` value (`result.envConfig || {}`, so spreading contributes
the field only when a truthy object with that field is stored). Hence
the value is the stored object's `ENCRYPTION_ITERATIONS` field when one
is present, and the default `100000` in every other case. -/
def envEncryptionIterations (initialized : Bool) (storedEnvConfig : Option JVal) : JVal :=
  if initialized = false then .num (defaultEncryptionIterations : Int)
  else
    match storedEnvConfig with
    | some (.obj fs) =>
      match jget fs "ENCRYPTION_ITERATIONS" with
      | some v => v
      | none => .num (defaultEncryptionIterations : Int)
    | _ => .num (defaultEncryptionIterations : Int)

theorem envEncryptionIterations_uninitialized (e : Option JVal) :
    envEncryptionIterations false e = .num (defaultEncryptionIterations : Int) := rfl

theorem envEncryptionIterations_no_stored_config (b : Bool) :
    envEncryptionIterations b none = .num (defaultEncryptionIterations : Int) := by
  cases b <;> rfl

/-- `pin.padEnd(32, '0')`. -/
def padEnd32 (s : String) : String :=
  s ++ String.mk (List.replicate (32 - s.length) '0')

/-- The PIN-derived wrapper key (`AuthService.storePin` /
`AuthService.verifyPin`, src/unnamed/part_003): PBKDF2 over
`pin.padEnd(32, '0')` with salt `'SecureSphere'` and
`iterations: ENV.get('ENCRYPTION_ITERATIONS')` — the numeric iteration
count of the loaded configuration (`envEncryptionIterations`), passed
in as `iters`. -/
def pinDerivedKey (pin : String) (iters : Nat) : Nat :=
  pbkdf2Key (padEnd32 pin) "SecureSphere" iters

/-- Modelled from the spec: `bip39.mnemonicToSeed` from the external
`bip39` library — a deterministic 64-byte PBKDF2-SHA512 expansion of the
mnemonic string that performs NO checksum validation (validation is the
separate `validateMnemonic`). Stand-in digest, 64 bytes. -/
def mnemonicToSeed (m : String) : List Nat :=
  (List.range 64).map (fun i =>
    (strToCodes m).foldl (fun a b => (a * 31 + b + i) % 256) (i + 1))

theorem mnemonicToSeed_length (m : String) : (mnemonicToSeed m).length = 64 := by
  simp [mnemonicToSeed]

/-- Split a character stream into space-separated words. -/
def wordsAux : List Char → List Char → List (List Char)
  | [], cur => [cur.reverse]
  | c :: t, cur => if c = ' ' then cur.reverse :: wordsAux t [] else wordsAux t (c :: cur)

/-- Modelled from the spec: `bip39.validateMnemonic` from the external
`bip39` library — wordlist and checksum validation. Stand-in: a valid
BIP39 word count (12/15/18/21/24) of nonempty lowercase words; captures
that validation rejects malformed phrases and is consulted only where
the source calls it. -/
def validateMnemonic (m : String) : Bool :=
  let ws := (wordsAux m.data []).filter (fun w => w ≠ [])
  [12, 15, 18, 21, 24].contains ws.length && ws.all (fun w => w.all Char.isLower)

/-- `AuthService.initializeStorageEncryption`: derive the whole-storage
key, verify it (`verifyStorageEncryption`, proven always true), migrate
existing data, and hold the key in memory. -/
def initializeStorageEncryption (seedPhrase : String) (a : AuthState) (st : St)
    (ivs : Nat → Nat) (now : Nat) : AuthState × St :=
  let k := generateStorageEncryptionKey seedPhrase
  ({ a with currentStorageKey := some k },
   (migrateToEncryptedStorage k ivs now st).2)

/-- `getSecureStorage().set`: raw merge when no storage key is resident
(pre-unlock fallback), encrypted batch write otherwise. -/
def ssSet (a : AuthState) (items : List (String × JVal)) (st : St)
    (ivs : Nat → Nat) (now : Nat) : St :=
  match a.currentStorageKey with
  | none => jsetAll st items
  | some k => secureStorageSet items k ivs now st

/-- Raw `chrome.storage.local.get` on a key list. -/
def rawGet : List String → St → List (String × JVal)
  | [], _ => []
  | k :: t, st =>
    match jget st k with
    | none => rawGet t st
    | some v => (k, v) :: rawGet t st

/-- `getSecureStorage().get`: raw read when no storage key is resident,
decrypting read otherwise. -/
def ssGet (a : AuthState) (keys : List String) (st : St) :
    Option (List (String × JVal)) :=
  match a.currentStorageKey with
  | none => some (rawGet keys st)
  | some k => secureStorageGet keys st k

/-- `AuthService.createUserSession`. -/
def createUserSession (seedPhrase : String) (now : Nat) (a : AuthState) : AuthState :=
  { a with currentUserSession := some ⟨seedPhrase, now, true⟩ }

/-- `AuthService.clearUserSession`: drops the session and the resident
storage key. -/
def clearUserSession (a : AuthState) : AuthState :=
  { a with currentUserSession := none, currentStorageKey := none }

/-- `AuthService.isSessionValid`: false when there is no active session;
when the session age strictly exceeds the timeout, clears the session as
a side effect (lazy expiry) and returns false. Returns the flag and the
possibly-updated state. -/
def isSessionValid (a : AuthState) (now : Nat) : Bool × AuthState :=
  match a.currentUserSession with
  | none => (false, a)
  | some s =>
    if s.isActive = false then (false, a)
    else if ((now : Int) - (s.timestamp : Int)) > a.sessionTimeout then
      (false, clearUserSession a)
    else (true, a)

/-- `AuthService.refreshUserSession`. -/
def refreshUserSession (a : AuthState) (now : Nat) : AuthState :=
  match a.currentUserSession with
  | none => a
  | some s =>
    if s.isActive then { a with currentUserSession := some { s with timestamp := now } }
    else a

/-- The record returned by `AuthService.getCurrentSession`. -/
structure SessionInfo where
  seedPhrase : String
  timestamp : Nat
  isActive : Bool
  timeRemaining : Int
deriving DecidableEq

/-- `AuthService.getCurrentSession`: `none` unless a session exists and
`isSessionValid` holds (which may itself clear an expired session). -/
def getCurrentSession (a : AuthState) (now : Nat) : Option SessionInfo × AuthState :=
  match a.currentUserSession with
  | none => (none, a)
  | some s =>
    let va := isSessionValid a now
    if va.1 then
      (some ⟨s.seedPhrase, s.timestamp, s.isActive,
        a.sessionTimeout - ((now : Int) - (s.timestamp : Int))⟩, va.2)
    else (none, va.2)

/-- Result record of `AuthService.storePin`. -/
structure PinStoreResult where
  success : Bool
  error : Option String
deriving DecidableEq

/-- `AuthService.storePin`: bootstrap storage encryption if needed,
encrypt the PIN under the seed-derived key, encrypt the seed phrase
under the PIN-derived key (`iterations: ENV.get('ENCRYPTION_ITERATIONS')`,
passed in as `iters`), and persist both (plus the plaintext-marker
fields) through secure storage. -/
def storePin (pin seedPhrase : String) (iters : Nat) (a : AuthState) (st : St)
    (ivsInit : Nat → Nat) (ivP ivS : Nat) (ivsSet : Nat → Nat) (now : Nat) :
    PinStoreResult × AuthState × St :=
  let ini :=
    if a.currentStorageKey.isNone then initializeStorageEncryption seedPhrase a st ivsInit now
    else (a, st)
  match generateKeyFromSeedBytes (mnemonicToSeed seedPhrase) with
  | none => (⟨false, some "Valid seed bytes (at least 64 bytes) are required for key generation."⟩,
             ini.1, ini.2)
  | some kb =>
    let encryptedPin := encryptData pin kb.encryptionKey ivP
    let encryptedSeed := encryptData seedPhrase (pinDerivedKey pin iters) ivS
    let st2 := ssSet ini.1 [("pinCode", encryptedPin), ("encryptedSeedPhrase", encryptedSeed),
      ("storedSeedPhrase", .str seedPhrase), ("hasSeedPhrase", .bool true)] ini.2 ivsSet now
    (⟨true, none⟩, ini.1, st2)

/-- Result record of `AuthService.verifyPin`. -/
structure PinVerifyResult where
  verified : Bool
  seedPhrase : Option String
  error : Option String
deriving DecidableEq

/-- `AuthService.verifyPin`: recover the seed phrase from the
PIN-derived key (`iterations: ENV.get('ENCRYPTION_ITERATIONS')`, passed
in as `iters`), bootstrap storage encryption if needed, decrypt the
stored PIN with the seed-derived key, and compare it to the candidate
by exact string equality; only then establish a session. -/
def verifyPin (pin : String) (iters : Nat) (a : AuthState) (st : St)
    (ivsInit : Nat → Nat) (now : Nat) : PinVerifyResult × AuthState × St :=
  match ssGet a ["pinCode", "encryptedSeedPhrase"] st with
  | none => (⟨false, none,
      some "Failed to decrypt storage data - possible corruption or wrong key"⟩, a, st)
  | some result =>
    let pinCode := (jget result "pinCode").getD .null
    let encryptedSeedPhrase := (jget result "encryptedSeedPhrase").getD .null
    if jTruthy pinCode = false ∨ jTruthy encryptedSeedPhrase = false then
      (⟨false, none, some "PIN not set or seed phrase not found"⟩, a, st)
    else
      match decryptData encryptedSeedPhrase (pinDerivedKey pin iters) with
      | none => (⟨false, none, some "Invalid PIN"⟩, a, st)
      | some seedPhrase =>
        let ini :=
          if a.currentStorageKey.isNone then
            initializeStorageEncryption seedPhrase a st ivsInit now
          else (a, st)
        match generateKeyFromSeedBytes (mnemonicToSeed seedPhrase) with
        | none => (⟨false, none,
            some "Valid seed bytes (at least 64 bytes) are required for key generation."⟩,
            ini.1, ini.2)
        | some kb =>
          match decryptData pinCode kb.encryptionKey with
          | none => (⟨false, none,
              some "Failed to decrypt storage data - possible corruption or wrong key"⟩,
              ini.1, ini.2)
          | some decryptedPin =>
            if decryptedPin = pin then
              (⟨true, some seedPhrase, none⟩, createUserSession seedPhrase now ini.1, ini.2)
            else
              (⟨false, none, some "Invalid PIN"⟩, ini.1, ini.2)

/-! ### Credential store (`PasswordService`,
`src/lib/password/password-service.js`; module-level copies in part_001) -/

/-- JS whitespace (the subset relevant here). -/
def isJsSpace (c : Char) : Bool := c = ' ' ∨ c = '\t' ∨ c = '\n' ∨ c = '\r'

/-- `String.prototype.trim`, modelled: strip leading and trailing
whitespace. -/
def jsTrim (s : String) : String :=
  String.mk (((s.data.dropWhile isJsSpace).reverse.dropWhile isJsSpace).reverse)

/-- `PasswordService.validateSeedPhrase`: falsy input is invalid, else
BIP39 validation of the trimmed phrase. -/
def validateSeedPhrase (seedPhrase : String) : Bool :=
  if seedPhrase = "" then false else validateMnemonic (jsTrim seedPhrase)

/-- Result record of `storeCredentials`. -/
structure StoreResult where
  success : Bool
  error : Option String
deriving DecidableEq

/-- `PasswordService.createBackupRecord`: prepend a backup descriptor to
the (at most 10) tracked backups; failures are swallowed by the caller. -/
def createBackupRecord (credentialCount : Nat) (a : AuthState) (st : St)
    (ivs : Nat → Nat) (now : Nat) : St :=
  match ssGet a ["backups"] st with
  | none => st
  | some res =>
    let backups := match jget res "backups" with
      | some (.arr xs) => xs
      | _ => []
    let newBackup : JVal := .obj [("id", .str (String.mk (natChars now))),
      ("timestamp", .num (now : Int)), ("credentialCount", .num (credentialCount : Int))]
    ssSet a [("backups", .arr ((newBackup :: backups).take 10)),
      ("currentBackupId", .str (String.mk (natChars now)))] st ivs now

/-- `PasswordService.storeCredentials`: derive the seed key (with no
mnemonic validation), serialise `{credentials, timestamp}`, encrypt it
as one blob, persist it as the `credentials` entry, then track a backup
record. -/
def storeCredentials (credentials : List JVal) (seedPhrase : String)
    (timestamp : Option String) (nowIso : String) (a : AuthState) (st : St)
    (ivC : Nat) (ivsSet ivsBak : Nat → Nat) (now : Nat) : StoreResult × St :=
  match generateKeyFromSeedBytes (mnemonicToSeed seedPhrase) with
  | none => (⟨false,
      some "Valid seed bytes (at least 64 bytes) are required for key generation."⟩, st)
  | some kb =>
    let dataToStore : JVal := .obj [("credentials", .arr credentials),
      ("timestamp", .str (timestamp.getD nowIso))]
    let encrypted := encryptData (jsonStringify dataToStore) kb.encryptionKey ivC
    let st1 := ssSet a [("credentials", encrypted), ("hasSeedPhrase", .bool true)] st ivsSet now
    (⟨true, none⟩, createBackupRecord credentials.length a st1 ivsBak now)

/-- Result record of `getCredentials` (`{credentials, walletSeeds,
error?}`). -/
structure CredsResult where
  credentials : JVal
  walletSeeds : JVal
  error : Option String
deriving DecidableEq

/-- The legacy-shape dispatch at the end of `getCredentials`
(password-service.js lines 134-148): bare array / truthy `credentials`
field / other object as a single record / anything else empty. A `null`
document makes the `data.credentials` access throw, which the
surrounding catch converts into a decrypt error. -/
def parseCredDoc (data : JVal) : CredsResult :=
  match data with
  | .arr xs => ⟨.arr xs, .arr [], none⟩
  | .null => ⟨.arr [], .arr [], some "Failed to decrypt credentials: TypeError"⟩
  | .obj fs =>
    if jTruthy ((jget fs "credentials").getD .null) then
      ⟨(jget fs "credentials").getD .null,
       if jTruthy ((jget fs "walletSeeds").getD .null) then (jget fs "walletSeeds").getD .null
       else .arr [], none⟩
    else ⟨.arr [.obj fs], .arr [], none⟩
  | _ => ⟨.arr [], .arr [], none⟩

/-- The decrypt-and-parse stage of `getCredentials` applied to a stored
blob: decrypt with the seed-derived key, `JSON.parse`, then dispatch on
the document shape. -/
def getCredentialsFromBlob (blob : JVal) (key : Nat) : CredsResult :=
  match decryptData blob key with
  | none => ⟨.arr [], .arr [], some "Failed to decrypt credentials"⟩
  | some decrypted =>
    match jsonParse decrypted with
    | none => ⟨.arr [], .arr [], some "Failed to decrypt credentials"⟩
    | some data => parseCredDoc data

/-- `PasswordService.getCredentials`: the no-seed-phrase raw read, the
validation guard, and the decrypting read. -/
def getCredentials (seedPhrase : String) (a : AuthState) (st : St) : CredsResult :=
  if seedPhrase = "" then
    match ssGet a ["credentials"] st with
    | none => ⟨.arr [], .arr [], some "Failed to access storage"⟩
    | some res =>
      match jget res "credentials" with
      | none => ⟨.arr [], .arr [], some "No credentials found"⟩
      | some v =>
        if jTruthy v then ⟨v, .arr [], none⟩
        else ⟨.arr [], .arr [], some "No credentials found"⟩
  else if validateSeedPhrase seedPhrase = false then
    ⟨.arr [], .arr [], some "Invalid seed phrase"⟩
  else
    match generateKeyFromSeedBytes (mnemonicToSeed seedPhrase) with
    | none => ⟨.arr [], .arr [],
        some "Valid seed bytes (at least 64 bytes) are required for key generation."⟩
    | some kb =>
      match ssGet a ["credentials", "backupCID"] st with
      | none => ⟨.arr [], .arr [],
          some "Failed to decrypt storage data - possible corruption or wrong key"⟩
      | some stored =>
        match jget stored "credentials" with
        | none => ⟨.arr [], .arr [], none⟩
        | some blob =>
          if jTruthy blob then getCredentialsFromBlob blob kb.encryptionKey
          else ⟨.arr [], .arr [], none⟩

/-- Result record of `validateCredential`. -/
structure VResult where
  valid : Bool
  errors : List String
deriving DecidableEq

/-- `!credential.f || credential.f.trim().length === 0` — blank-field
test; accessing `.trim()` on a truthy non-string throws (`.error`). -/
def jsFieldBlank (fs : List (String × JVal)) (name : String) : Except String Bool :=
  match jget fs name with
  | none => .ok true
  | some v =>
    if jTruthy v = false then .ok true
    else match v with
      | .str s => .ok (decide ((jsTrim s).length = 0))
      | _ => .error "TypeError"

/-- `PasswordService.validateCredential`: type-specific required-field
checks (wallet: name+seedPhrase; default login: website+username+
password); non-objects fail with a single error. -/
def validateCredential (c : JVal) : Except String VResult :=
  match c with
  | .obj fs =>
    if (jget fs "type").getD .null = JVal.str "wallet" then do
      let e1 ← jsFieldBlank fs "name"
      let e2 ← jsFieldBlank fs "seedPhrase"
      let errors := (if e1 then ["Wallet name is required"] else []) ++
                    (if e2 then ["Wallet seed phrase is required"] else [])
      .ok ⟨decide (errors = []), errors⟩
    else do
      let e1 ← jsFieldBlank fs "website"
      let e2 ← jsFieldBlank fs "username"
      let e3 ← jsFieldBlank fs "password"
      let errors := (if e1 then ["Website is required"] else []) ++
                    (if e2 then ["Username is required"] else []) ++
                    (if e3 then ["Password is required"] else [])
      .ok ⟨decide (errors = []), errors⟩
  | .arr _ =>
      .ok ⟨false, ["Website is required", "Username is required", "Password is required"]⟩
  | _ => .ok ⟨false, ["Credential must be an object"]⟩

/-- The validation filter of `importCredentials`: keep the records whose
validation succeeds; a thrown validation error aborts the batch. -/
def validateRecords : List JVal → Except String (List JVal)
  | [] => .ok []
  | r :: t =>
    match validateCredential r with
    | .error e => .error e
    | .ok vres =>
      match validateRecords t with
      | .error e => .error e
      | .ok rest => .ok (if vres.valid then r :: rest else rest)

/-- JS property access `v.name`: throws on `null`, `undefined` (here
`.null`) on non-objects. -/
def jsField (v : JVal) (name : String) : Except String JVal :=
  match v with
  | .null => .error "TypeError"
  | .obj fs => .ok ((jget fs name).getD .null)
  | _ => .ok .null

/-- Result record of `importCredentials`. -/
structure ImportResult where
  success : Bool
  imported : Option Nat
  total : Option Nat
  skipped : Option Nat
  error : Option String
deriving DecidableEq

/-- `PasswordService.importCredentials`: parse, pick
`parsed.credentials || parsed.passwords || []`, filter by validation,
fail when no record is valid, merge with the existing credentials
(replace or append) and write back via `storeCredentials`. -/
def importCredentials (data : String) (seedPhrase : String) (format : String)
    (replace : Bool) (a : AuthState) (st : St) (ivC : Nat) (ivsSet ivsBak : Nat → Nat)
    (nowIso : String) (now : Nat) : ImportResult × St :=
  if format ≠ "json" then
    (⟨false, none, none, none, some ("Unsupported import format: " ++ format)⟩, st)
  else
    match jsonParse data with
    | none => (⟨false, none, none, none, some "JSON parse error"⟩, st)
    | some parsed =>
      match jsField parsed "credentials" with
      | .error e => (⟨false, none, none, none, some e⟩, st)
      | .ok credsF =>
        match jsField parsed "passwords" with
        | .error e => (⟨false, none, none, none, some e⟩, st)
        | .ok pwF =>
          match (if jTruthy credsF then credsF else if jTruthy pwF then pwF else .arr []) with
          | .arr recs =>
            match validateRecords recs with
            | .error e => (⟨false, none, none, none, some e⟩, st)
            | .ok valid =>
              if valid.length = 0 then
                (⟨false, none, none, none, some "No valid credentials found in import data"⟩, st)
              else
                match (getCredentials seedPhrase a st).credentials with
                | .arr existing =>
                  let final := if replace then valid else existing ++ valid
                  let sres := storeCredentials final seedPhrase none nowIso a st ivC ivsSet ivsBak now
                  if sres.1.success then
                    (⟨true, some valid.length, some final.length,
                      some (recs.length - valid.length), none⟩, sres.2)
                  else
                    (⟨false, none, none, none,
                      some ((sres.1.error).getD "Failed to store imported credentials")⟩, sres.2)
                | _ => (⟨false, none, none, none, some "TypeError"⟩, st)
          | _ => (⟨false, none, none, none, some "TypeError"⟩, st)

/-! ### Shared corollaries used by several claim proofs -/

theorem generateKeyFromSeedBytes_mnemonic (m : String) :
    generateKeyFromSeedBytes (mnemonicToSeed m) = some
      { encryptionKey := encB ((mnemonicToSeed m).take 32)
        privateKey := String.mk ('0' :: 'x' :: toHexString ((mnemonicToSeed m).take 32))
        publicKey :=
          String.mk ('0' :: 'x' :: toHexString (((mnemonicToSeed m).drop 32).take 32)) } := by
  unfold generateKeyFromSeedBytes
  rw [if_neg]
  rw [mnemonicToSeed_length]
  omega

theorem decryptStorage_obj (fs : List (String × JVal)) (key iv now : Nat) :
    decryptStorageData (encryptStorageData (.obj fs) key iv now) key = some (.obj fs) := by
  rw [decryptStorageData_encryptStorageData]

/-- Lookup of a written entry after `secureStorageSet` (the shared core
of C5 and of the PIN round-trip reasoning). -/
theorem jget_secureStorageSet_entry (items : List (String × JVal)) (key : Nat)
    (ivs : Nat → Nat) (now : Nat) (st : St) (idx : Nat) (k : String) (v : JVal)
    (hnd : (items.map Prod.fst).Nodup) (hget : items.get? idx = some (k, v))
    (hk1 : k ≠ "hasEncryptedStorage") (hk2 : k ≠ "storageVersion") :
    jget (secureStorageSet items key ivs now st) k =
      some (if k ∈ skipEncryption then v else encryptStorageData v key (ivs idx) now) := by
  unfold secureStorageSet
  have hloop := jget_encryptLoop_of_get? items key ivs now idx k v [] 0 hget hnd
  rw [Nat.zero_add] at hloop
  have hnd1 : ((encryptLoop items key ivs now [] 0).map Prod.fst).Nodup :=
    encryptLoop_nodup items key ivs now [] 0 (by simp)
  have hnd2 := jset_keys_nodup _ "hasEncryptedStorage" (.bool true) hnd1
  have hnd3 := jset_keys_nodup _ "storageVersion" (.str "1.0") hnd2
  apply jget_jsetAll_some _ _ _ _ hnd3
  rw [jget_jset_ne _ _ hk2, jget_jset_ne _ _ hk1, hloop]

/-- The markers stamped by every `secureStorageSet` batch. -/
theorem jget_secureStorageSet_markers (items : List (String × JVal)) (key : Nat)
    (ivs : Nat → Nat) (now : Nat) (st : St) :
    jget (secureStorageSet items key ivs now st) "hasEncryptedStorage" = some (.bool true) ∧
    jget (secureStorageSet items key ivs now st) "storageVersion" = some (.str "1.0") := by
  unfold secureStorageSet
  have hnd1 : ((encryptLoop items key ivs now [] 0).map Prod.fst).Nodup :=
    encryptLoop_nodup items key ivs now [] 0 (by simp)
  have hnd2 := jset_keys_nodup _ "hasEncryptedStorage" (.bool true) hnd1
  have hnd3 := jset_keys_nodup _ "storageVersion" (.str "1.0") hnd2
  constructor
  · apply jget_jsetAll_some _ _ _ _ hnd3
    rw [jget_jset_ne _ _ (by decide), jget_jset_self]
  · apply jget_jsetAll_some _ _ _ _ hnd3
    rw [jget_jset_self]

/-! ## The claims -/

/-- C1: for every AES-GCM key `k`, IV and plaintext string `p`,
`decryptData(encryptData(p, k), k)` returns `p`; in particular the
storage key derived from any mnemonic (seed bytes via
`bip39.mnemonicToSeed`, key via `generateKeyFromSeedBytes`) decrypts
its own `{iv, data}` envelopes back to the exact plaintext. -/
theorem c1_encrypt_decrypt_roundtrip :
    (∀ (p : String) (k iv : Nat), decryptData (encryptData p k iv) k = some p) ∧
    (∀ (m p : String) (iv : Nat), ∃ kb,
      generateKeyFromSeedBytes (mnemonicToSeed m) = some kb ∧
      decryptData (encryptData p kb.encryptionKey iv) kb.encryptionKey = some p) := by
  refine ⟨fun p k iv => decryptData_encryptData p k iv, fun m p iv => ?_⟩
  refine ⟨_, generateKeyFromSeedBytes_mnemonic m, decryptData_encryptData _ _ _⟩

/-- C10: the secure-storage round trip is the identity up to JSON
re-parsing: a non-string value comes back structurally equal, while a
string comes back as `JSON.parse` of itself when it is valid JSON text
(for example the string "123" comes back as the number 123) and
unchanged only when it is not valid JSON. -/
theorem c10_storage_roundtrip_not_identity :
    (∀ (v : JVal) (key iv now : Nat),
      decryptStorageData (encryptStorageData v key iv now) key =
        some (match v with
              | .str s => (match jsonParse s with | some j => j | none => .str s)
              | _ => v)) ∧
    decryptStorageData (encryptStorageData (.str "123") 7 3 0) 7 = some (.num 123) ∧
    decryptStorageData (encryptStorageData (.str "hello") 7 3 0) 7 = some (.str "hello") := by
  refine ⟨fun v key iv now => decryptStorageData_encryptStorageData v key iv now, ?_, ?_⟩
  · decide
  · decide

/-- C3 counterexample: with a 5 ms timeout, a session established at
t = 0 is still reported valid at now = 5 although `now - t < T` is false
there — the validity boundary in the code is `≤ T`, not `< T` as the
claim states. -/
theorem c3_counterexample :
    (isSessionValid ⟨some ⟨"m", 0, true⟩, none, 5⟩ 5).1 = true ∧
    ¬((5 : Int) - (0 : Int) < 5) := by
  constructor
  · rfl
  · decide

/-- C3 (amended): the validity check reports a session valid exactly
when it exists, is active, and `now - t ≤ T`; whenever the elapsed time
STRICTLY exceeds `T`, the check returns false and, as a side effect,
clears the session state (the in-memory session and the cached storage
key), so a subsequent `getCurrentSession` returns null. -/
theorem c3_session_validity_amended (a : AuthState) (now : Nat) :
    ((isSessionValid a now).1 = true ↔
      ∃ s, a.currentUserSession = some s ∧ s.isActive = true ∧
        (now : Int) - (s.timestamp : Int) ≤ a.sessionTimeout) ∧
    (∀ s, a.currentUserSession = some s → s.isActive = true →
      (now : Int) - (s.timestamp : Int) > a.sessionTimeout →
      (isSessionValid a now).1 = false ∧
      (isSessionValid a now).2.currentUserSession = none ∧
      (isSessionValid a now).2.currentStorageKey = none ∧
      (∀ now2, (getCurrentSession (isSessionValid a now).2 now2).1 = none)) := by
  constructor
  · cases ha : a.currentUserSession with
    | none => simp [isSessionValid, ha]
    | some s =>
      by_cases hact : s.isActive
      · by_cases hexp : (now : Int) - (s.timestamp : Int) > a.sessionTimeout
        · simp only [isSessionValid, ha, hact]
          rw [if_neg (by simp), if_pos hexp]
          constructor
          · intro h; simp at h
          · rintro ⟨s2, hs2, _, hle⟩
            injection hs2 with hs2
            subst hs2
            omega
        · simp only [isSessionValid, ha, hact]
          rw [if_neg (by simp), if_neg hexp]
          constructor
          · intro _
            exact ⟨s, rfl, hact, by omega⟩
          · intro _; rfl
      · simp only [isSessionValid, ha]
        rw [if_pos (by simpa using hact)]
        constructor
        · intro h; simp at h
        · rintro ⟨s2, hs2, hs2a, _⟩
          injection hs2 with hs2
          subst hs2
          exact absurd hs2a (by simpa using hact)
  · intro s hs hact hexp
    have hval : isSessionValid a now = (false, clearUserSession a) := by
      simp only [isSessionValid, hs, hact]
      rw [if_neg (by simp), if_pos hexp]
    refine ⟨by rw [hval], by rw [hval]; rfl, by rw [hval]; rfl, ?_⟩
    intro now2
    rw [hval]
    rfl

/-- C3 witness: a concrete expired session (timeout 3 ms, established at
0, checked at 10) is invalidated and cleared by the check. -/
theorem c3_witness :
    (isSessionValid ⟨some ⟨"m", 0, true⟩, some 5, 3⟩ 10).1 = false ∧
    (isSessionValid ⟨some ⟨"m", 0, true⟩, some 5, 3⟩ 10).2.currentUserSession = none ∧
    (isSessionValid ⟨some ⟨"m", 0, true⟩, some 5, 3⟩ 10).2.currentStorageKey = none ∧
    (∀ now2, (getCurrentSession (isSessionValid ⟨some ⟨"m", 0, true⟩, some 5, 3⟩ 10).2 now2).1
      = none) :=
  (c3_session_validity_amended ⟨some ⟨"m", 0, true⟩, some 5, 3⟩ 10).2
    ⟨"m", 0, true⟩ rfl rfl (by decide)

/-- C4 (code evaluated at the failing input): "foo bar baz" fails BIP39
validation (and `validateSeedPhrase`), yet `storeCredentials` silently
derives keys from it, persists the encrypted credentials blob, and
returns success; moreover `storeCredentials` succeeds for EVERY mnemonic
string, valid or not — it never consults the validator. -/
theorem c4_store_skips_validation :
    validateMnemonic "foo bar baz" = false ∧
    validateSeedPhrase "foo bar baz" = false ∧
    (storeCredentials [.obj [("website", .str "a"), ("username", .str "b"),
        ("password", .str "c")]] "foo bar baz" none "t0"
      ⟨none, none, 300000⟩ [] 5 (fun i => i) (fun i => i) 9).1.success = true ∧
    jget (storeCredentials [.obj [("website", .str "a"), ("username", .str "b"),
        ("password", .str "c")]] "foo bar baz" none "t0"
      ⟨none, none, 300000⟩ [] 5 (fun i => i) (fun i => i) 9).2 "credentials" ≠ none ∧
    (∀ (creds : List JVal) (m : String) (ts : Option String) (niso : String)
       (a : AuthState) (st : St) (ivC : Nat) (ivsSet ivsBak : Nat → Nat) (now : Nat),
      (storeCredentials creds m ts niso a st ivC ivsSet ivsBak now).1.success = true) := by
  refine ⟨by decide, by decide, by decide, by decide, ?_⟩
  intro creds m ts niso a st ivC ivsSet ivsBak now
  unfold storeCredentials
  rw [generateKeyFromSeedBytes_mnemonic]

/-- C6: `migrateToEncryptedStorage` is idempotent — when the
`hasEncryptedStorage` marker is already set (truthy) the call returns
success and leaves the storage contents unchanged, and a second call
right after a first one is always such a no-op, so migrating twice
produces the same final storage contents as migrating once. -/
theorem c6_migrate_idempotent (key key2 : Nat) (ivs ivs2 : Nat → Nat)
    (now now2 : Nat) (st : St) :
    (jTruthy ((jget st "hasEncryptedStorage").getD .null) = true →
      migrateToEncryptedStorage key ivs now st = (true, st)) ∧
    migrateToEncryptedStorage key2 ivs2 now2 (migrateToEncryptedStorage key ivs now st).2 =
      (true, (migrateToEncryptedStorage key ivs now st).2) := by
  have hnoop : ∀ (k : Nat) (iv : Nat → Nat) (n : Nat) (s : St),
      jTruthy ((jget s "hasEncryptedStorage").getD .null) = true →
      migrateToEncryptedStorage k iv n s = (true, s) := by
    intro k iv n s h
    unfold migrateToEncryptedStorage
    rw [if_pos h]
  refine ⟨hnoop key ivs now st, ?_⟩
  by_cases h : jTruthy ((jget st "hasEncryptedStorage").getD .null) = true
  · rw [hnoop key ivs now st h]
    exact hnoop key2 ivs2 now2 st h
  · have hmig : migrateToEncryptedStorage key ivs now st =
        (true, jsetAll st (jset (jset (migrateLoop st key ivs now [] 0)
          "hasEncryptedStorage" (.bool true)) "storageVersion" (.str "1.0"))) := by
      unfold migrateToEncryptedStorage
      rw [if_neg h]
    rw [hmig]
    apply hnoop
    have hnd1 : ((migrateLoop st key ivs now [] 0).map Prod.fst).Nodup :=
      migrateLoop_nodup st key ivs now [] 0 (by simp)
    have hnd2 := jset_keys_nodup _ "hasEncryptedStorage" (.bool true) hnd1
    have hnd3 := jset_keys_nodup _ "storageVersion" (.str "1.0") hnd2
    rw [jget_jsetAll_some _ _ _ _ hnd3
      (by rw [jget_jset_ne _ _ (by decide), jget_jset_self])]
    rfl

/-- C6 witness: on a store already carrying the marker, migration is a
no-op returning success. -/
theorem c6_witness :
    migrateToEncryptedStorage 7 (fun i => i) 9
      [("hasEncryptedStorage", .bool true), ("x", .str "y")] =
      (true, [("hasEncryptedStorage", .bool true), ("x", .str "y")]) :=
  (c6_migrate_idempotent 7 7 (fun i => i) (fun i => i) 9 9
    [("hasEncryptedStorage", .bool true), ("x", .str "y")]).1 (by decide)

/-- C5: while a storage key is available, `secureStorageSet` writes each
allowlisted key (`firstTimeSetup`, `hasEncryptedStorage`,
`storageVersion`) unchanged, writes every other value as an encryption
envelope under that key (with the fresh IV drawn for its position), and
the written batch always contains `hasEncryptedStorage = true` and
`storageVersion = '1.0'`, overwriting any caller-supplied values for
those two keys. -/
theorem c5_secure_storage_set (items : List (String × JVal)) (key : Nat)
    (ivs : Nat → Nat) (now : Nat) (st : St)
    (hnd : (items.map Prod.fst).Nodup) :
    (∀ (idx : Nat) (k : String) (v : JVal), items.get? idx = some (k, v) →
      k ≠ "hasEncryptedStorage" → k ≠ "storageVersion" →
      jget (secureStorageSet items key ivs now st) k =
        some (if k ∈ skipEncryption then v else encryptStorageData v key (ivs idx) now)) ∧
    jget (secureStorageSet items key ivs now st) "hasEncryptedStorage" = some (.bool true) ∧
    jget (secureStorageSet items key ivs now st) "storageVersion" = some (.str "1.0") := by
  refine ⟨?_, jget_secureStorageSet_markers items key ivs now st⟩
  intro idx k v hget hk1 hk2
  exact jget_secureStorageSet_entry items key ivs now st idx k v hnd hget hk1 hk2

/-- C5 witness: a concrete batch holding one allowlisted key
(`firstTimeSetup`, written unchanged), one ordinary key (`credentials`,
written as an envelope), a caller-supplied `hasEncryptedStorage = false`
(overwritten to `true`), and the stamped version. -/
theorem c5_witness :
    jget (secureStorageSet [("firstTimeSetup", .bool false), ("credentials", .str "x"),
        ("hasEncryptedStorage", .bool false)] 7 (fun i => i) 9 [])
      "firstTimeSetup" = some (.bool false) ∧
    jget (secureStorageSet [("firstTimeSetup", .bool false), ("credentials", .str "x"),
        ("hasEncryptedStorage", .bool false)] 7 (fun i => i) 9 [])
      "credentials" = some (encryptStorageData (.str "x") 7 1 9) ∧
    jget (secureStorageSet [("firstTimeSetup", .bool false), ("credentials", .str "x"),
        ("hasEncryptedStorage", .bool false)] 7 (fun i => i) 9 [])
      "hasEncryptedStorage" = some (.bool true) ∧
    jget (secureStorageSet [("firstTimeSetup", .bool false), ("credentials", .str "x"),
        ("hasEncryptedStorage", .bool false)] 7 (fun i => i) 9 [])
      "storageVersion" = some (.str "1.0") := by
  have h := c5_secure_storage_set [("firstTimeSetup", .bool false), ("credentials", .str "x"),
    ("hasEncryptedStorage", .bool false)] 7 (fun i => i) 9 [] (by decide)
  refine ⟨?_, ?_, h.2.1, h.2.2⟩
  · have := h.1 0 "firstTimeSetup" (.bool false) (by decide) (by decide) (by decide)
    simpa using this
  · have := h.1 1 "credentials" (.str "x") (by decide) (by decide) (by decide)
    simpa using this

/-- Shared with C7: the decrypt-and-parse stage applied to an envelope of
a stringified document recovers the document and dispatches on its
shape. -/
theorem getCredentialsFromBlob_stringify (d : JVal) (key iv : Nat) :
    getCredentialsFromBlob (encryptData (jsonStringify d) key iv) key = parseCredDoc d := by
  unfold getCredentialsFromBlob
  rw [decryptData_encryptData]
  show (match jsonParse (jsonStringify d) with
        | none => ⟨.arr [], .arr [], some "Failed to decrypt credentials"⟩
        | some data => parseCredDoc data) = parseCredDoc d
  rw [jsonParse_stringify]

/-- C7 counterexample: the stored document `{credentials: null}` has a
`credentials` field, yet retrieval treats it as a single bare record
(the branch tests JS truthiness and `null` is falsy) instead of
returning that field as the credentials list, as the claim states. -/
theorem c7_counterexample :
    getCredentialsFromBlob
        (encryptData (jsonStringify (.obj [("credentials", JVal.null)])) 7 3) 7 =
      ⟨.arr [.obj [("credentials", JVal.null)]], .arr [], none⟩ ∧
    JVal.arr [.obj [("credentials", JVal.null)]] ≠ JVal.null := by
  constructor
  · decide
  · decide

/-- C7 (amended): for every stored credential blob that decrypts and
parses successfully, retrieval tolerates three legacy shapes — a bare
JSON array yields `{credentials: the array, walletSeeds: []}`; an object
with a TRUTHY `credentials` field yields `{credentials: that field,
walletSeeds: the walletSeeds field if truthy else []}`; any other JSON
object (including one whose `credentials` field is falsy, e.g. null) is
treated as a single record, yielding `{credentials: [that object],
walletSeeds: []}`. -/
theorem c7_legacy_shapes_amended (key iv : Nat) :
    (∀ (xs : List JVal),
      getCredentialsFromBlob (encryptData (jsonStringify (.arr xs)) key iv) key =
        ⟨.arr xs, .arr [], none⟩) ∧
    (∀ (fs : List (String × JVal)),
      jTruthy ((jget fs "credentials").getD .null) = true →
      getCredentialsFromBlob (encryptData (jsonStringify (.obj fs)) key iv) key =
        ⟨(jget fs "credentials").getD .null,
         if jTruthy ((jget fs "walletSeeds").getD .null) then
           (jget fs "walletSeeds").getD .null
         else .arr [], none⟩) ∧
    (∀ (fs : List (String × JVal)),
      jTruthy ((jget fs "credentials").getD .null) = false →
      getCredentialsFromBlob (encryptData (jsonStringify (.obj fs)) key iv) key =
        ⟨.arr [.obj fs], .arr [], none⟩) := by
  refine ⟨fun xs => ?_, fun fs h => ?_, fun fs h => ?_⟩
  · rw [getCredentialsFromBlob_stringify]
    rfl
  · rw [getCredentialsFromBlob_stringify]
    simp only [parseCredDoc]
    rw [if_pos h]
  · rw [getCredentialsFromBlob_stringify]
    simp only [parseCredDoc]
    rw [if_neg (by simp [h])]

/-- C7 witness: the three amended shapes at concrete documents. -/
theorem c7_witness :
    getCredentialsFromBlob
        (encryptData (jsonStringify (.arr [.str "r1"])) 7 3) 7 =
      ⟨.arr [.str "r1"], .arr [], none⟩ ∧
    getCredentialsFromBlob
        (encryptData (jsonStringify
          (.obj [("credentials", .arr [.str "r1"]), ("walletSeeds", .arr [.str "w"])])) 7 3) 7 =
      ⟨.arr [.str "r1"], .arr [.str "w"], none⟩ ∧
    getCredentialsFromBlob
        (encryptData (jsonStringify (.obj [("website", .str "a")])) 7 3) 7 =
      ⟨.arr [.obj [("website", .str "a")]], .arr [], none⟩ := by
  refine ⟨?_, ?_, ?_⟩
  · exact (c7_legacy_shapes_amended 7 3).1 [.str "r1"]
  · have := (c7_legacy_shapes_amended 7 3).2.1
      [("credentials", .arr [.str "r1"]), ("walletSeeds", .arr [.str "w"])] (by decide)
    simpa using this
  · exact (c7_legacy_shapes_amended 7 3).2.2 [("website", .str "a")] (by decide)

/-! #### The PIN round trip (shared by C2 and C9) -/

theorem jTruthy_encryptData (s : String) (k iv : Nat) :
    jTruthy (encryptData s k iv) = true := rfl

theorem decryptStorage_encryptData_roundtrip (s : String) (k1 k2 iv1 iv2 now : Nat) :
    decryptStorageData (encryptStorageData (encryptData s k1 iv1) k2 iv2 now) k2 =
      some (encryptData s k1 iv1) := by
  rw [decryptStorageData_encryptStorageData]
  simp only [encryptData]

/-- The shape of a successful `storePin`: success result, the storage
key resident, the session untouched, and the four-entry batch written
through `secureStorageSet` under the resident key. -/
theorem storePin_shape (p m : String) (iters : Nat) (a : AuthState) (st : St)
    (ivsInit : Nat → Nat) (ivP ivS : Nat) (ivsSet : Nat → Nat) (now : Nat) :
    ∃ (K : Nat) (st1 : St) (A1 : AuthState),
      storePin p m iters a st ivsInit ivP ivS ivsSet now =
        (⟨true, none⟩, A1,
         secureStorageSet
           [("pinCode", encryptData p (encB ((mnemonicToSeed m).take 32)) ivP),
            ("encryptedSeedPhrase", encryptData m (pinDerivedKey p iters) ivS),
            ("storedSeedPhrase", .str m), ("hasSeedPhrase", .bool true)]
           K ivsSet now st1) ∧
      A1.currentStorageKey = some K ∧
      A1.currentUserSession = a.currentUserSession := by
  cases hk : a.currentStorageKey with
  | none =>
    refine ⟨generateStorageEncryptionKey m,
      (migrateToEncryptedStorage (generateStorageEncryptionKey m) ivsInit now st).2,
      { a with currentStorageKey := some (generateStorageEncryptionKey m) }, ?_, rfl, rfl⟩
    unfold storePin
    rw [generateKeyFromSeedBytes_mnemonic]
    simp only [hk, Option.isNone_none, if_pos]
    rfl
  | some k0 =>
    have hset : ssSet a [("pinCode", encryptData p (encB ((mnemonicToSeed m).take 32)) ivP),
        ("encryptedSeedPhrase", encryptData m (pinDerivedKey p iters) ivS),
        ("storedSeedPhrase", .str m), ("hasSeedPhrase", .bool true)] st ivsSet now =
        secureStorageSet [("pinCode", encryptData p (encB ((mnemonicToSeed m).take 32)) ivP),
        ("encryptedSeedPhrase", encryptData m (pinDerivedKey p iters) ivS),
        ("storedSeedPhrase", .str m), ("hasSeedPhrase", .bool true)] k0 ivsSet now st := by
      unfold ssSet
      rw [hk]
    refine ⟨k0, st, a, ?_, hk, rfl⟩
    unfold storePin
    rw [generateKeyFromSeedBytes_mnemonic]
    simp only [hk, Option.isNone_some, Bool.false_eq_true, reduceIte]
    rw [hset]

/-- `verifyPin` on a state produced by `storePin` under the same loaded
iteration count: the candidate is accepted exactly when its PIN-derived
key matches AND the decrypted stored PIN equals the candidate; every
rejection path returns `Invalid PIN` and leaves the state unchanged. -/
theorem verifyPin_on_stored (c p m : String) (iters : Nat) (A1 : AuthState) (K : Nat)
    (st1 st2 : St) (ivP ivS : Nat) (ivsSet ivsInit2 : Nat → Nat) (now now2 : Nat)
    (hK : A1.currentStorageKey = some K)
    (hst2 : st2 = secureStorageSet
        [("pinCode", encryptData p (encB ((mnemonicToSeed m).take 32)) ivP),
         ("encryptedSeedPhrase", encryptData m (pinDerivedKey p iters) ivS),
         ("storedSeedPhrase", .str m), ("hasSeedPhrase", .bool true)] K ivsSet now st1) :
    verifyPin c iters A1 st2 ivsInit2 now2 =
      if pinDerivedKey c iters = pinDerivedKey p iters then
        (if p = c then (⟨true, some m, none⟩, createUserSession m now2 A1, st2)
         else (⟨false, none, some "Invalid PIN"⟩, A1, st2))
      else (⟨false, none, some "Invalid PIN"⟩, A1, st2) := by
  have hpin : jget st2 "pinCode" =
      some (encryptStorageData (encryptData p (encB ((mnemonicToSeed m).take 32)) ivP)
        K (ivsSet 0) now) := by
    rw [hst2]
    have h := jget_secureStorageSet_entry
      [("pinCode", encryptData p (encB ((mnemonicToSeed m).take 32)) ivP),
       ("encryptedSeedPhrase", encryptData m (pinDerivedKey p iters) ivS),
       ("storedSeedPhrase", .str m), ("hasSeedPhrase", .bool true)] K ivsSet now st1
      0 "pinCode" (encryptData p (encB ((mnemonicToSeed m).take 32)) ivP)
      (of_decide_eq_true rfl) rfl (by decide) (by decide)
    simpa [skipEncryption] using h
  have hseed : jget st2 "encryptedSeedPhrase" =
      some (encryptStorageData (encryptData m (pinDerivedKey p iters) ivS) K (ivsSet 1) now) := by
    rw [hst2]
    have h := jget_secureStorageSet_entry
      [("pinCode", encryptData p (encB ((mnemonicToSeed m).take 32)) ivP),
       ("encryptedSeedPhrase", encryptData m (pinDerivedKey p iters) ivS),
       ("storedSeedPhrase", .str m), ("hasSeedPhrase", .bool true)] K ivsSet now st1
      1 "encryptedSeedPhrase" (encryptData m (pinDerivedKey p iters) ivS)
      (of_decide_eq_true rfl) rfl (by decide) (by decide)
    simpa [skipEncryption] using h
  have hd0 : decryptStorageData
      (encryptStorageData (encryptData p (encB ((mnemonicToSeed m).take 32)) ivP)
        K (ivsSet 0) now) K =
      some (encryptData p (encB ((mnemonicToSeed m).take 32)) ivP) :=
    decryptStorage_encryptData_roundtrip _ _ _ _ _ _
  have hd1 : decryptStorageData
      (encryptStorageData (encryptData m (pinDerivedKey p iters) ivS) K (ivsSet 1) now) K =
      some (encryptData m (pinDerivedKey p iters) ivS) :=
    decryptStorage_encryptData_roundtrip _ _ _ _ _ _
  have hget : ssGet A1 ["pinCode", "encryptedSeedPhrase"] st2 =
      some [("pinCode", encryptData p (encB ((mnemonicToSeed m).take 32)) ivP),
            ("encryptedSeedPhrase", encryptData m (pinDerivedKey p iters) ivS)] := by
    unfold ssGet
    rw [hK]
    show secureStorageGet ["pinCode", "encryptedSeedPhrase"] st2 K = _
    simp only [secureStorageGet, hpin, hseed, hd0, hd1, skipEncryption, List.mem_cons,
      List.not_mem_nil, String.reduceEq, or_self, or_false, false_or, reduceIte]
  unfold verifyPin
  rw [hget]
  simp only [jget, String.reduceEq, reduceIte, Option.getD_some]
  rw [if_neg (by simp [jTruthy_encryptData])]
  by_cases hkey : pinDerivedKey c iters = pinDerivedKey p iters
  · rw [hkey, decryptData_encryptData, if_pos rfl]
    simp only [hK, Option.isNone_some, Bool.false_eq_true, reduceIte]
    rw [generateKeyFromSeedBytes_mnemonic]
    show ((match decryptData (encryptData p (encB ((mnemonicToSeed m).take 32)) ivP)
        (encB ((mnemonicToSeed m).take 32)) with
      | none => (⟨false, none,
          some "Failed to decrypt storage data - possible corruption or wrong key"⟩, A1, st2)
      | some decryptedPin =>
        if decryptedPin = c then
          (⟨true, some m, none⟩, createUserSession m now2 A1, st2)
        else (⟨false, none, some "Invalid PIN"⟩, A1, st2)) :
      PinVerifyResult × AuthState × St) = _
    rw [decryptData_encryptData]
  · rw [decryptData_encryptData_wrong_key _ _ hkey, if_neg hkey]

/-- C2: for every PIN `p`, mnemonic `m` and loaded iteration count,
`storePin p m` succeeds, the subsequent `verifyPin p` returns
`{verified := true, seedPhrase := m}` and installs an active session
stamped at the verification time; and for every candidate `c ≠ p`,
`verifyPin c` returns
`{verified := false, seedPhrase := none, error := "Invalid PIN"}` and
leaves the session exactly as it was before the store. -/
theorem c2_pin_roundtrip (p m c : String) (iters : Nat) (a : AuthState) (st : St)
    (ivsInit ivsSet ivsInit2 ivsInit3 : Nat → Nat) (ivP ivS : Nat)
    (now now2 now3 : Nat) (hc : c ≠ p) :
    (storePin p m iters a st ivsInit ivP ivS ivsSet now).1 = ⟨true, none⟩ ∧
    (verifyPin p iters (storePin p m iters a st ivsInit ivP ivS ivsSet now).2.1
        (storePin p m iters a st ivsInit ivP ivS ivsSet now).2.2 ivsInit2 now2).1 =
      ⟨true, some m, none⟩ ∧
    (verifyPin p iters (storePin p m iters a st ivsInit ivP ivS ivsSet now).2.1
        (storePin p m iters a st ivsInit ivP ivS ivsSet now).2.2
        ivsInit2 now2).2.1.currentUserSession = some ⟨m, now2, true⟩ ∧
    (verifyPin c iters (storePin p m iters a st ivsInit ivP ivS ivsSet now).2.1
        (storePin p m iters a st ivsInit ivP ivS ivsSet now).2.2 ivsInit3 now3).1 =
      ⟨false, none, some "Invalid PIN"⟩ ∧
    (verifyPin c iters (storePin p m iters a st ivsInit ivP ivS ivsSet now).2.1
        (storePin p m iters a st ivsInit ivP ivS ivsSet now).2.2
        ivsInit3 now3).2.1.currentUserSession = a.currentUserSession := by
  obtain ⟨K, st1, A1, heq, hK, hsess⟩ :=
    storePin_shape p m iters a st ivsInit ivP ivS ivsSet now
  have hv1 := verifyPin_on_stored p p m iters A1 K st1 _ ivP ivS ivsSet ivsInit2 now now2 hK rfl
  rw [if_pos rfl, if_pos rfl] at hv1
  have hv2 := verifyPin_on_stored c p m iters A1 K st1 _ ivP ivS ivsSet ivsInit3 now now3 hK rfl
  have hv2f : verifyPin c iters A1 (secureStorageSet
      [("pinCode", encryptData p (encB ((mnemonicToSeed m).take 32)) ivP),
       ("encryptedSeedPhrase", encryptData m (pinDerivedKey p iters) ivS),
       ("storedSeedPhrase", .str m), ("hasSeedPhrase", .bool true)] K ivsSet now st1)
      ivsInit3 now3 =
      (⟨false, none, some "Invalid PIN"⟩, A1, secureStorageSet
      [("pinCode", encryptData p (encB ((mnemonicToSeed m).take 32)) ivP),
       ("encryptedSeedPhrase", encryptData m (pinDerivedKey p iters) ivS),
       ("storedSeedPhrase", .str m), ("hasSeedPhrase", .bool true)] K ivsSet now st1) := by
    rw [hv2]
    by_cases hkey : pinDerivedKey c iters = pinDerivedKey p iters
    · rw [if_pos hkey, if_neg (fun hpc => hc hpc.symm)]
    · rw [if_neg hkey]
  rw [heq]
  dsimp only
  rw [hv1, hv2f]
  exact ⟨rfl, rfl, rfl, rfl, hsess⟩

/-- C2 witness: a concrete store/verify pair at the default iteration
count of the shipped configuration; the wrong candidate `"5678"`
against the stored `"1234"` is rejected with `Invalid PIN`. -/
theorem c2_witness :
    ("5678" : String) ≠ "1234" ∧
    (verifyPin "5678" defaultEncryptionIterations
        (storePin "1234" "m" defaultEncryptionIterations ⟨none, some 1, 0⟩ []
          (fun i => i) 0 1 (fun i => i) 0).2.1
        (storePin "1234" "m" defaultEncryptionIterations ⟨none, some 1, 0⟩ []
          (fun i => i) 0 1 (fun i => i) 0).2.2
        (fun i => i) 0).1 = ⟨false, none, some "Invalid PIN"⟩ :=
  ⟨by decide, (c2_pin_roundtrip "1234" "m" "5678" defaultEncryptionIterations ⟨none, some 1, 0⟩
      [] (fun i => i) (fun i => i) (fun i => i) (fun i => i) 0 1 0 0 0 (by decide)).2.2.2.1⟩

/-- C9: the PIN wrapper key is derived from the PIN right-padded with
`'0'` to length 32, so distinct PINs that agree after padding derive the
SAME wrapper key (at any loaded iteration count) — both decrypt the
stored seed-phrase envelope — yet `verifyPin` still rejects the
colliding candidate, because the final comparison is exact string
equality of the decrypted stored PIN. -/
theorem c9_pin_padding_collision (p c m : String) (iters : Nat) (a : AuthState) (st : St)
    (ivsInit ivsSet ivsInit2 : Nat → Nat) (ivP ivS : Nat) (now now2 : Nat)
    (hpad : padEnd32 c = padEnd32 p) (hne : c ≠ p) :
    pinDerivedKey c iters = pinDerivedKey p iters ∧
    (∀ iv, decryptData (encryptData m (pinDerivedKey p iters) iv) (pinDerivedKey c iters) =
      some m) ∧
    (verifyPin c iters (storePin p m iters a st ivsInit ivP ivS ivsSet now).2.1
        (storePin p m iters a st ivsInit ivP ivS ivsSet now).2.2 ivsInit2 now2).1 =
      ⟨false, none, some "Invalid PIN"⟩ := by
  have hkey : pinDerivedKey c iters = pinDerivedKey p iters := by
    unfold pinDerivedKey
    rw [hpad]
  refine ⟨hkey, fun iv => by rw [hkey, decryptData_encryptData], ?_⟩
  obtain ⟨K, st1, A1, heq, hK, hsess⟩ :=
    storePin_shape p m iters a st ivsInit ivP ivS ivsSet now
  rw [heq]
  dsimp only
  rw [verifyPin_on_stored c p m iters A1 K st1 _ ivP ivS ivsSet ivsInit2 now now2 hK rfl,
    if_pos hkey, if_neg (fun hpc => hne hpc.symm)]

/-- C9 witness: `"12340"` and `"1234"` agree after zero-padding to 32
characters, are distinct, and derive the same wrapper key at the
default iteration count. -/
theorem c9_witness :
    padEnd32 "12340" = padEnd32 "1234" ∧ ("12340" : String) ≠ "1234" ∧
    pinDerivedKey "12340" defaultEncryptionIterations =
      pinDerivedKey "1234" defaultEncryptionIterations :=
  ⟨by decide, by decide, (c9_pin_padding_collision "1234" "12340" "m"
      defaultEncryptionIterations ⟨none, some 1, 0⟩ []
      (fun i => i) (fun i => i) (fun i => i) 0 1 0 0 (by decide) (by decide)).1⟩

/-! #### C8: import validation -/

theorem storeCredentials_success (creds : List JVal) (m : String) (ts : Option String)
    (nowIso : String) (a : AuthState) (st : St) (ivC : Nat) (ivsSet ivsBak : Nat → Nat)
    (now : Nat) :
    (storeCredentials creds m ts nowIso a st ivC ivsSet ivsBak now).1 = ⟨true, none⟩ := by
  unfold storeCredentials
  rw [generateKeyFromSeedBytes_mnemonic]

/-- C8 counterexample to "an invalid record never causes the batch to
fail": a one-record batch whose only record is invalid makes the
whole import fail with an error (and no skipped count), instead of
reporting `imported = 0, skipped = 1`. -/
theorem c8_counterexample :
    (importCredentials "\x7b\"credentials\":[\x7b\"website\":\"\"\x7d]\x7d" "" "json" false
      ⟨none, none, 0⟩ [] 0 (fun i => i) (fun i => i) "t" 0).1 =
      ⟨false, none, none, none, some "No valid credentials found in import data"⟩ := by
  decide

/-- C8 (amended): PROVIDED at least one record validates, invalid
records are skipped and counted (not fatal): the result is success with
`imported` = the number of valid records, `skipped` = the number of
invalid ones, and the valid records are merged with the existing
credentials (replace vs append on the flag) and written back through
`storeCredentials`. With zero valid records the batch fails instead. -/
theorem c8_import_validation_amended (data seedPhrase : String) (replace : Bool)
    (a : AuthState) (st : St) (ivC : Nat) (ivsSet ivsBak : Nat → Nat)
    (nowIso : String) (now : Nat) (fields : List (String × JVal))
    (recs valid existing : List JVal)
    (hp : jsonParse data = some (.obj fields))
    (hcf : jget fields "credentials" = some (.arr recs))
    (hv : validateRecords recs = .ok valid)
    (hne : valid ≠ [])
    (hex : (getCredentials seedPhrase a st).credentials = .arr existing) :
    importCredentials data seedPhrase "json" replace a st ivC ivsSet ivsBak nowIso now =
      (⟨true, some valid.length, some (if replace then valid else existing ++ valid).length,
        some (recs.length - valid.length), none⟩,
       (storeCredentials (if replace then valid else existing ++ valid)
          seedPhrase none nowIso a st ivC ivsSet ivsBak now).2) := by
  unfold importCredentials
  rw [if_neg (fun h => h rfl), hp]
  dsimp only [jsField]
  rw [hcf]
  dsimp only [Option.getD_some]
  rw [if_pos (show jTruthy (JVal.arr recs) = true from rfl)]
  dsimp only
  rw [hv]
  dsimp only
  rw [if_neg (fun h => hne (List.length_eq_zero.mp h))]
  rw [hex]
  dsimp only
  have hs : (storeCredentials (if replace then valid else existing ++ valid)
      seedPhrase none nowIso a st ivC ivsSet ivsBak now).1.success = true := by
    rw [storeCredentials_success]
  rw [if_pos hs]

/-- C8 witness: a two-record batch (one valid login, one invalid
record) succeeds with `imported = 1`, `total = 1`, `skipped = 1`. -/
theorem c8_witness :
    (importCredentials
      "\x7b\"credentials\":[\x7b\"website\":\"a\",\"username\":\"b\",\"password\":\"c\"\x7d,[]]\x7d"
      "" "json" false ⟨none, none, 0⟩ [] 0 (fun i => i) (fun i => i) "t" 0).1 =
      ⟨true, some 1, some 1, some 1, none⟩ := by
  rw [c8_import_validation_amended
    "\x7b\"credentials\":[\x7b\"website\":\"a\",\"username\":\"b\",\"password\":\"c\"\x7d,[]]\x7d"
    "" false ⟨none, none, 0⟩ [] 0 (fun i => i) (fun i => i) "t" 0
    [("credentials", .arr [.obj [("website", .str "a"), ("username", .str "b"),
      ("password", .str "c")], .arr []])]
    [.obj [("website", .str "a"), ("username", .str "b"), ("password", .str "c")], .arr []]
    [.obj [("website", .str "a"), ("username", .str "b"), ("password", .str "c")]]
    [] rfl rfl rfl (by decide) rfl]
  decide
